import Mathlib


/-!
# Areal re-aggregation (`areal-reagg`): accumulation and normalization

A shallow embedding of `Run` (`areal-reagg/arealReagg.go`) and of the branch test of `main`
(`main.go`), with theorems about the per-field update rule, the normalization pass,
conservation, order independence and the handling of degenerate inputs.

Numbers.  The program computes on `float64`.  The development reads the arithmetic exactly:
a finite value is a rational number and is never rounded, and the three non-finite results
that Go's float division can produce (`+Inf`, `-Inf`, `NaN`) are kept as values of their own,
so that a division by zero is visible in the model instead of being given a number.  Signed
zeros are identified.

Maps.  A Go map is an association list; reading a missing key gives the zero value, writing
replaces the binding or adds one, and ranging over the map visits every key once.

External collaborators (package `geom`, the R-tree, the shapefile decoder) are parameters.
-/

set_option autoImplicit false

namespace arealReagg

/-! ## Exact `float64` values -/

/-- A `float64` read exactly: a rational number, or one of the non-finite values. -/
inductive F64 where
  | fin (q : ℚ)
  | pinf
  | ninf
  | nan
deriving DecidableEq

namespace F64

/-- Addition: `+Inf + -Inf` is `NaN`, `NaN` absorbs, an infinity absorbs finite values. -/
def add : F64 → F64 → F64
  | fin a, fin b => fin (a + b)
  | nan, _ => nan
  | _, nan => nan
  | pinf, ninf => nan
  | ninf, pinf => nan
  | pinf, _ => pinf
  | _, pinf => pinf
  | ninf, _ => ninf
  | _, ninf => ninf

/-- Multiplication: `0 * Inf` is `NaN`, otherwise the sign rule. -/
def mul : F64 → F64 → F64
  | fin a, fin b => fin (a * b)
  | nan, _ => nan
  | _, nan => nan
  | fin a, pinf => if a = 0 then nan else if 0 < a then pinf else ninf
  | fin a, ninf => if a = 0 then nan else if 0 < a then ninf else pinf
  | pinf, fin b => if b = 0 then nan else if 0 < b then pinf else ninf
  | ninf, fin b => if b = 0 then nan else if 0 < b then ninf else pinf
  | pinf, pinf => pinf
  | pinf, ninf => ninf
  | ninf, pinf => ninf
  | ninf, ninf => pinf

/-- Division: `0 / 0` is `NaN`, `x / 0` is an infinity with the sign of `x`, a finite value
divided by an infinity is `0`, and `Inf / Inf` is `NaN`. -/
def div : F64 → F64 → F64
  | fin a, fin b =>
    if b = 0 then (if a = 0 then nan else if 0 < a then pinf else ninf) else fin (a / b)
  | nan, _ => nan
  | _, nan => nan
  | fin _, pinf => fin 0
  | fin _, ninf => fin 0
  | pinf, fin b => if 0 ≤ b then pinf else ninf
  | ninf, fin b => if 0 ≤ b then ninf else pinf
  | pinf, pinf => nan
  | pinf, ninf => nan
  | ninf, pinf => nan
  | ninf, ninf => nan

instance : Zero F64 := ⟨fin 0⟩
instance : Add F64 := ⟨add⟩
instance : Mul F64 := ⟨mul⟩
instance : Div F64 := ⟨div⟩

instance : AddCommMonoid F64 where
  add_assoc := by
    intro x y z
    cases x <;> cases y <;> cases z <;>
      first | rfl | exact congrArg fin (add_assoc _ _ _)
  zero_add := by
    intro x
    cases x <;> first | rfl | exact congrArg fin (zero_add _)
  add_zero := by
    intro x
    cases x <;> first | rfl | exact congrArg fin (add_zero _)
  add_comm := by
    intro x y
    cases x <;> cases y <;> first | rfl | exact congrArg fin (add_comm _ _)
  nsmul := nsmulRec

/-- The value is a number (neither an infinity nor `NaN`). -/
def isFinite : F64 → Bool
  | fin _ => true
  | _ => false

end F64

/-! ## Go maps -/

/-- The Go expression `v, ok := m[k]`: the binding of `k`, if there is one. -/
def goLookup {α β : Type} [DecidableEq α] : List (α × β) → α → Option β
  | [], _ => none
  | (k', v) :: rest, k => if k' = k then some v else goLookup rest k

/-- The Go statement `m[k] = v`: replaces the binding of `k`, or adds one. -/
def goStore {α β : Type} [DecidableEq α] : List (α × β) → α → β → List (α × β)
  | [], k, v => [(k, v)]
  | (k', v') :: rest, k, v =>
    if k' = k then (k, v) :: rest else (k', v') :: goStore rest k v

/-- A record's attribute table, `map[string]float64`. -/
abbrev Fields := List (String × F64)

/-- The Go expression `fields[k]` read as a value: `0` for a missing key. -/
def Fields.get (f : Fields) (k : String) : F64 :=
  match goLookup f k with
  | some v => v
  | none => 0

/-- The keys visited by `for k := range fields`, each once. -/
def Fields.keys (f : Fields) : List String :=
  (f.map Prod.fst).dedup

/-- The weighting policy `weightVars`, `map[string]string`: weighted-average field to
denominator field. -/
abbrev Policy := List (String × String)

/-! ## Geometry (package `geom`) -/

namespace geom

/-- Type `geom.Point`. -/
structure Point where
  X : ℚ
  Y : ℚ
deriving DecidableEq

/-- Type `geom.Bounds`, a bounding envelope; the key of `outData`. -/
structure Bounds where
  Min : Point
  Max : Point
deriving DecidableEq

/-- Type `geom.Polygon`: a list of rings. -/
abbrev Polygon := List (List Point)

end geom

/-- Struct `inRec`: a source record. -/
structure inRec where
  Polygonal : geom.Polygon
  fields : Fields
deriving DecidableEq

/-- Struct `outRec`: a target record. -/
structure outRec where
  Polygon : geom.Polygon
  fields : Fields
deriving DecidableEq

/-- The map `outData`, `map[geom.Bounds]*outRec`. -/
abbrev OutData := List (geom.Bounds × outRec)

/-- The operations of the geometry library and of the R-tree that `Run` calls.  The tree is
the list of the records inserted into it. -/
structure Geometry where
  /-- Method `r.Area()`. -/
  Area : geom.Polygon → ℚ
  /-- The area of `r.Intersection(p)`. -/
  IntersectionArea : geom.Polygon → geom.Polygon → ℚ
  /-- Method `polygonTree.SearchIntersect(b)`, on the list of inserted records. -/
  SearchIntersect : List outRec → geom.Bounds → List outRec
  /-- Method `p.Bounds()`. -/
  Bounds : geom.Polygon → geom.Bounds

/-! ## `arealReagg.go` -/

/-- The policy built in the first two lines of `Run`. -/
def weightVars : Policy := [("TotalPM25", "TotalPop")]

/-- Function `loadToShp`, from the decoded and reprojected polygons of the target layer: every
record is inserted into the tree, its bounds are appended, and it is stored in `records` under
its bounds (a later record with the same bounds replaces the earlier one).  The `fields` of a
loaded record are not allocated. -/
def loadToShp (G : Geometry) :
    List geom.Polygon → List geom.Bounds × List outRec × OutData →
      List geom.Bounds × List outRec × OutData
  | [], acc => acc
  | gg :: more, (bounds, polygonTree, records) =>
    let rec_ : outRec := { Polygon := gg, fields := [] }
    loadToShp G more
      (bounds ++ [G.Bounds rec_.Polygon], polygonTree ++ [rec_],
        goStore records (G.Bounds rec_.Polygon) rec_)

/-- The statement `outData[g].fields[k] += d`.  There is no result when `outData` has no
record under `g` (the program dereferences a nil pointer). -/
def addField (outData : OutData) (g : geom.Bounds) (k : String) (d : F64) : Option OutData :=
  match goLookup outData g with
  | none => none
  | some t =>
    some (goStore outData g { t with fields := goStore t.fields k (t.fields.get k + d) })

/-- The right-hand side of the two `+=` statements of `Run`: what the pair adds to field `k`. -/
def contribution (weightVars : Policy) (r : inRec) (isectArea rArea : ℚ) (k : String) : F64 :=
  match goLookup weightVars k with
  | some w => r.fields.get k * r.fields.get w
  | none => r.fields.get k * (F64.fin isectArea / F64.fin rArea)

/-- The body of the loop over the candidates: the intersection area, then the loop over the
fields of `r`. -/
def visitPair (G : Geometry) (weightVars : Policy) (r : inRec) (rArea : ℚ) (p : outRec)
    (outData : OutData) : Option OutData :=
  let isectArea := G.IntersectionArea r.Polygonal p.Polygon
  r.fields.keys.foldlM
    (fun od k => addField od (G.Bounds p.Polygon) k (contribution weightVars r isectArea rArea k))
    outData

/-- The body of the loop over the source records: the area of `r`, then the loop over the
candidates that the tree returns for the bounds of `r`. -/
def visitRecord (G : Geometry) (weightVars : Policy) (polygonTree : List outRec) (r : inRec)
    (outData : OutData) : Option OutData :=
  let rArea := G.Area r.Polygonal
  (G.SearchIntersect polygonTree (G.Bounds r.Polygonal)).foldlM
    (fun od p => visitPair G weightVars r rArea p od) outData

/-- The accumulation loop of `Run`. -/
def accumulate (G : Geometry) (weightVars : Policy) (polygonTree : List outRec)
    (records : List inRec) (outData : OutData) : Option OutData :=
  records.foldlM (fun od r => visitRecord G weightVars polygonTree r od) outData

/-- The statement `fields[k] /= fields[w]` under `if w, ok := weightVars[k]; ok`. -/
def normalizeField (weightVars : Policy) (f : Fields) (k : String) : Fields :=
  match goLookup weightVars k with
  | some w => goStore f k (f.get k / f.get w)
  | none => f

/-- The loop `for k := range v.fields` of the normalization pass, visiting the keys in the
order `ks`. -/
def normalizeFields (weightVars : Policy) (ks : List String) (f : Fields) : Fields :=
  ks.foldl (normalizeField weightVars) f

/-- The normalization pass of `Run`: every record of `outData` is normalized in place. -/
def normalize (weightVars : Policy) (outData : OutData) : OutData :=
  outData.map fun gv =>
    (gv.1, { gv.2 with fields := normalizeFields weightVars gv.2.fields.keys gv.2.fields })

/-- The loop that allocates an empty `fields` map in every record of `outData`.  Its body
evaluates `records[0]`, so it has no result when there is a target record and no source
record. -/
def allocFields (records : List inRec) (outData : OutData) : Option OutData :=
  match outData, records with
  | [], _ => some []
  | _ :: _, [] => none
  | gv :: rest, _ :: _ => some ((gv :: rest).map fun e => (e.1, { e.2 with fields := [] }))

/-- Function `Run`, from the loaded source records and the polygons of the target layer to
the records that are written out. -/
def Run (G : Geometry) (records : List inRec) (target : List geom.Polygon) : Option OutData :=
  let loaded := loadToShp G target ([], [], [])
  let polygonTree := loaded.2.1
  match allocFields records loaded.2.2 with
  | none => none
  | some outData =>
    match accumulate G weightVars polygonTree records outData with
    | none => none
    | some acc => some (normalize weightVars acc)

/-! ## `main.go`

The file `main.go` holds an earlier copy of the algorithm.  Its loop is not a program that
runs: the statement `p.(toGeom).fields = make(...)` assigns to a field of a type assertion,
which Go rejects, and no other statement allocates the field maps that the `+=` statements
write.  What is embedded is the test that chooses the branch for a field name. -/

/-- The map `weightCheck` built in `main`. -/
def weightCheck : List (String × Bool) := [("TotalPop", false), ("TotalPM25", true)]

/-- The test `_, ok := weightCheck[k]; ok` that guards the weighted-average branch in both
loops of `main`: whether `k` is a key of the map.  The stored value is discarded. -/
def weightCheckOk (weightCheck : List (String × Bool)) (k : String) : Bool :=
  (goLookup weightCheck k).isSome

/-! ## The accumulation as a list of additions -/

/-- One execution of a `+=` statement of the accumulation loop: the key of the record, the
field, and the value added. -/
abbrev Event := geom.Bounds × String × F64

/-- The additions made while one candidate is visited, in the order of the loop. -/
def pairEvents (G : Geometry) (weightVars : Policy) (r : inRec) (rArea : ℚ) (p : outRec) :
    List Event :=
  r.fields.keys.map fun k =>
    (G.Bounds p.Polygon, k,
      contribution weightVars r (G.IntersectionArea r.Polygonal p.Polygon) rArea k)

/-- The additions made while one source record is visited. -/
def recordEvents (G : Geometry) (weightVars : Policy) (polygonTree : List outRec) (r : inRec) :
    List Event :=
  (G.SearchIntersect polygonTree (G.Bounds r.Polygonal)).flatMap
    (pairEvents G weightVars r (G.Area r.Polygonal))

/-- The additions made by the whole accumulation loop. -/
def allEvents (G : Geometry) (weightVars : Policy) (polygonTree : List outRec)
    (records : List inRec) : List Event :=
  records.flatMap (recordEvents G weightVars polygonTree)

/-- Executing a list of additions on `outData`. -/
def applyEvents (evs : List Event) (outData : OutData) : Option OutData :=
  evs.foldlM (fun od e => addField od e.1 e.2.1 e.2.2) outData

/-- The effect of a list of additions on the field map of the record under `g`. -/
def applyTo (evs : List Event) (g : geom.Bounds) (f : Fields) : Fields :=
  evs.foldl (fun f e => if e.1 = g then goStore f e.2.1 (f.get e.2.1 + e.2.2) else f) f

/-- The sum of the values that a list of additions adds to field `k` of the record under `g`. -/
def delta (evs : List Event) (g : geom.Bounds) (k : String) : F64 :=
  ((evs.filter fun e => e.1 = g ∧ e.2.1 = k).map fun e => e.2.2).sum

/-- Whether a list of additions writes field `k` of the record under `g`. -/
def touched (evs : List Event) (g : geom.Bounds) (k : String) : Bool :=
  evs.any fun e => e.1 = g ∧ e.2.1 = k

/-- The value of field `k` of the record under `g`, `0` when either is missing. -/
def fieldValue (outData : OutData) (g : geom.Bounds) (k : String) : F64 :=
  match goLookup outData g with
  | some t => t.fields.get k
  | none => 0

/-- The binding of field `k` in the record under `g`: `none` when there is no record,
`some none` when the record has no such field. -/
def fieldTable (outData : OutData) (g : geom.Bounds) (k : String) : Option (Option F64) :=
  (goLookup outData g).map fun t => goLookup t.fields k

/-- The invariant of the weighting policy: no denominator field is itself a weighted-average
field. -/
def ValidPolicy (weightVars : Policy) : Prop :=
  ∀ k w, goLookup weightVars k = some w → goLookup weightVars w = none

/-! ## Example layers

Two source rectangles, `A = [0,5] x [0,2]` and `B = [5,10] x [0,2]`, and a source that has
collapsed to a segment; the targets are the rectangles `T = [3,8] x [0,2]`,
`U = [0,3] x [0,2]` and `W = [0,10] x [0,2]`, a triangle with the envelope of `T`, and a
triangle whose envelope meets the envelope of `A` while the triangle itself does not meet `A`.  Envelopes and areas are
computed from the vertices; the areas of the intersections are tabulated. -/

/-- Source rectangle `A`. -/
def polyA : geom.Polygon := [[⟨0, 0⟩, ⟨5, 0⟩, ⟨5, 2⟩, ⟨0, 2⟩]]

/-- Source rectangle `B`. -/
def polyB : geom.Polygon := [[⟨5, 0⟩, ⟨10, 0⟩, ⟨10, 2⟩, ⟨5, 2⟩]]

/-- A source polygon of area zero: the segment from `(0,0)` to `(5,0)` and back. -/
def polyD : geom.Polygon := [[⟨0, 0⟩, ⟨5, 0⟩, ⟨0, 0⟩]]

/-- Target rectangle `T`. -/
def polyT : geom.Polygon := [[⟨3, 0⟩, ⟨8, 0⟩, ⟨8, 2⟩, ⟨3, 2⟩]]

/-- Target rectangle `U`. -/
def polyU : geom.Polygon := [[⟨0, 0⟩, ⟨3, 0⟩, ⟨3, 2⟩, ⟨0, 2⟩]]

/-- Target rectangle `W`, which contains `A` and `B`. -/
def polyW : geom.Polygon := [[⟨0, 0⟩, ⟨10, 0⟩, ⟨10, 2⟩, ⟨0, 2⟩]]

/-- Target triangle with the envelope of `T`. -/
def polyTri : geom.Polygon := [[⟨3, 0⟩, ⟨8, 0⟩, ⟨3, 2⟩]]

/-- Target triangle above `A`: its envelope `[4,8] x [1,4]` meets the envelope of `A`. -/
def polyV : geom.Polygon := [[⟨4, 4⟩, ⟨8, 4⟩, ⟨8, 1⟩]]

/-- The envelope of the vertices of a polygon. -/
def envelope (p : geom.Polygon) : geom.Bounds :=
  match p.flatten with
  | [] => ⟨⟨0, 0⟩, ⟨0, 0⟩⟩
  | q :: qs =>
    qs.foldl
      (fun b x => ⟨⟨min b.Min.X x.X, min b.Min.Y x.Y⟩, ⟨max b.Max.X x.X, max b.Max.Y x.Y⟩⟩)
      ⟨q, q⟩

/-- The area enclosed by the first ring of a polygon (shoelace formula). -/
def ringArea (p : geom.Polygon) : ℚ :=
  match p with
  | [] => 0
  | ring :: _ =>
    |((ring.zip (ring.rotate 1)).map fun e => e.1.X * e.2.Y - e.2.X * e.1.Y).sum| / 2

/-- Whether two envelopes overlap. -/
def overlaps (a b : geom.Bounds) : Bool :=
  decide (a.Min.X ≤ b.Max.X ∧ b.Min.X ≤ a.Max.X ∧ a.Min.Y ≤ b.Max.Y ∧ b.Min.Y ≤ a.Max.Y)

/-- The areas of the intersections of the example polygons. -/
def exIntersectionArea (r p : geom.Polygon) : ℚ :=
  if r = polyA ∧ p = polyT then 4
  else if r = polyB ∧ p = polyT then 6
  else if r = polyA ∧ p = polyU then 6
  else if r = polyA ∧ p = polyTri then 16 / 5
  else if r = polyB ∧ p = polyTri then 9 / 5
  else if r = polyB ∧ p = polyV then 2 / 3
  else if r = polyA ∧ p = polyW then 10
  else if r = polyB ∧ p = polyW then 10
  else 0

/-- The geometry of the example layers. -/
def exGeometry : Geometry where
  Area := ringArea
  IntersectionArea := exIntersectionArea
  SearchIntersect := fun tree b => tree.filter fun p => overlaps (envelope p.Polygon) b
  Bounds := envelope

/-- The policy of the example scenario: `pm25` is averaged with the weights `pop`. -/
def exPolicy : Policy := [("pm25", "pop")]

/-- Source record `A` of the example scenario. -/
def recA : inRec := { Polygonal := polyA, fields := [("pm25", F64.fin 5), ("pop", F64.fin 100)] }

/-- Source record `B` of the example scenario. -/
def recB : inRec := { Polygonal := polyB, fields := [("pm25", F64.fin 3), ("pop", F64.fin 50)] }

/-- A source record whose polygon has area zero, with the field names of `Run`. -/
def recD : inRec :=
  { Polygonal := polyD, fields := [("TotalPM25", F64.fin 5), ("TotalPop", F64.fin 100)] }

/-- A source record on `A` with no population, with the field names of `Run`. -/
def recZ : inRec :=
  { Polygonal := polyA, fields := [("TotalPM25", F64.fin 5), ("TotalPop", F64.fin 0)] }

/-- A target record with an allocated, empty field map. -/
def target (p : geom.Polygon) : outRec := { Polygon := p, fields := [] }

/-- The map `outData` over the given target polygons, every field map empty. -/
def emptyOut (ps : List geom.Polygon) : OutData :=
  ps.map fun p => (envelope p, target p)

/-- The target layer `T`, `U`, `V`. -/
def exTargets : List geom.Polygon := [polyT, polyU, polyV]

/-- The tree over the target layer `T`, `U`, `V`. -/
def exTree : List outRec := exTargets.map target

/-! ## Theorems -/

namespace F64
@[simp] theorem fin_add_fin (a b : ℚ) : fin a + fin b = fin (a + b) := rfl
@[simp] theorem fin_mul_fin (a b : ℚ) : fin a * fin b = fin (a * b) := rfl
theorem zero_def : (0 : F64) = fin 0 := rfl
theorem fin_div_fin (a b : ℚ) (hb : b ≠ 0) : fin a / fin b = fin (a / b) := by
  show div (fin a) (fin b) = _
  simp [div, hb]
theorem fin_div_zero (a : ℚ) :
    fin a / fin 0 = if a = 0 then nan else if 0 < a then pinf else ninf := by
  show div (fin a) (fin 0) = _
  simp [div]

end F64

section maps
variable {α β : Type} [DecidableEq α]

theorem goLookup_goStore (m : List (α × β)) (k k' : α) (v : β) :
    goLookup (goStore m k v) k' = if k = k' then some v else goLookup m k' := by
  induction m with
  | nil => simp [goStore, goLookup]
  | cons e rest ih =>
    obtain ⟨a, b⟩ := e
    by_cases h : a = k
    · subst h
      by_cases h2 : a = k' <;> simp [goStore, goLookup, h2]
    · simp only [goStore, h, if_false, goLookup, ih]
      by_cases h2 : a = k'
      · subst h2
        simp [Ne.symm h]
      · simp [h2]

theorem goLookup_isSome_iff (m : List (α × β)) (k : α) :
    (goLookup m k).isSome ↔ k ∈ m.map Prod.fst := by
  induction m with
  | nil => simp [goLookup]
  | cons e rest ih =>
    obtain ⟨a, b⟩ := e
    by_cases h : a = k
    · subst h; simp [goLookup]
    · simp [goLookup, h, ih, Ne.symm h]
end maps

theorem Fields.mem_keys (f : Fields) (k : String) : k ∈ f.keys ↔ (goLookup f k).isSome := by
  rw [Fields.keys, List.mem_dedup, goLookup_isSome_iff]

theorem Fields.nodup_keys (f : Fields) : f.keys.Nodup := List.nodup_dedup _

theorem Fields.get_goStore (f : Fields) (k k' : String) (v : F64) :
    Fields.get (goStore f k v) k' = if k = k' then v else f.get k' := by
  unfold Fields.get
  rw [goLookup_goStore]
  split_ifs <;> rfl

theorem applyEvents_nil (od : OutData) : applyEvents [] od = some od := rfl

theorem applyEvents_cons (e : Event) (evs : List Event) (od : OutData) :
    applyEvents (e :: evs) od = (addField od e.1 e.2.1 e.2.2).bind (applyEvents evs) := by
  simp [applyEvents, List.foldlM_cons]

theorem applyEvents_append (a b : List Event) (od : OutData) :
    applyEvents (a ++ b) od = (applyEvents a od).bind (applyEvents b) := by
  induction a generalizing od with
  | nil => simp [applyEvents_nil]
  | cons e a ih =>
    rw [List.cons_append, applyEvents_cons, applyEvents_cons]
    cases h : addField od e.1 e.2.1 e.2.2 with
    | none => rfl
    | some od1 => simp [ih]

theorem visitPair_eq (G : Geometry) (wv : Policy) (r : inRec) (rArea : ℚ) (p : outRec)
    (od : OutData) :
    visitPair G wv r rArea p od = applyEvents (pairEvents G wv r rArea p) od := by
  simp only [visitPair, applyEvents, pairEvents, List.foldlM_map]

theorem foldlM_applyEvents {α : Type} (f : α → List Event) (g : OutData → α → Option OutData)
    (hg : ∀ od a, g od a = applyEvents (f a) od) (l : List α) (od : OutData) :
    l.foldlM g od = applyEvents (l.flatMap f) od := by
  induction l generalizing od with
  | nil => rfl
  | cons a l ih =>
    rw [List.foldlM_cons, List.flatMap_cons, applyEvents_append, hg]
    cases h : applyEvents (f a) od with
    | none => rfl
    | some od1 => simpa using ih od1

theorem visitRecord_eq (G : Geometry) (wv : Policy) (tree : List outRec) (r : inRec)
    (od : OutData) :
    visitRecord G wv tree r od = applyEvents (recordEvents G wv tree r) od := by
  unfold visitRecord recordEvents
  exact foldlM_applyEvents _ _ (fun od p => visitPair_eq G wv r _ p od) _ od

theorem accumulate_eq (G : Geometry) (wv : Policy) (tree : List outRec) (records : List inRec)
    (od : OutData) :
    accumulate G wv tree records od = applyEvents (allEvents G wv tree records) od := by
  unfold accumulate allEvents
  exact foldlM_applyEvents _ _ (fun od r => visitRecord_eq G wv tree r od) _ od

/-- One addition: the record under `g` gets the new field map, the others are untouched. -/
theorem addField_lookup (od od1 : OutData) (g : geom.Bounds) (k : String) (d : F64)
    (h : addField od g k d = some od1) (g' : geom.Bounds) :
    goLookup od1 g' = (goLookup od g').map fun t =>
      { t with fields := applyTo [(g, k, d)] g' t.fields } := by
  unfold addField at h
  cases ht : goLookup od g with
  | none => simp [ht] at h
  | some t =>
    simp only [ht, Option.some.injEq] at h
    subst h
    rw [goLookup_goStore]
    by_cases hg : g = g'
    · subst hg
      simp [ht, applyTo]
    · simp only [hg, if_false, applyTo, List.foldl_cons, List.foldl_nil]
      cases goLookup od g' <;> simp

theorem addField_isSome (od : OutData) (g : geom.Bounds) (k : String) (d : F64) :
    (addField od g k d).isSome = (goLookup od g).isSome := by
  unfold addField
  cases goLookup od g <;> rfl

theorem applyTo_cons (e : Event) (evs : List Event) (g : geom.Bounds) (f : Fields) :
    applyTo (e :: evs) g f = applyTo evs g (applyTo [e] g f) := rfl

/-- A list of additions that succeeds changes each record by `applyTo`. -/
theorem applyEvents_lookup (evs : List Event) (od out : OutData)
    (h : applyEvents evs od = some out) (g : geom.Bounds) :
    goLookup out g = (goLookup od g).map fun t =>
      { t with fields := applyTo evs g t.fields } := by
  induction evs generalizing od with
  | nil =>
    simp only [applyEvents_nil, Option.some.injEq] at h
    subst h
    cases goLookup od g <;> simp [applyTo]
  | cons e evs ih =>
    rw [applyEvents_cons] at h
    cases h1 : addField od e.1 e.2.1 e.2.2 with
    | none => simp [h1] at h
    | some od1 =>
      simp only [h1, Option.some_bind] at h
      rw [ih od1 h, addField_lookup od od1 _ _ _ h1 g]
      cases goLookup od g with
      | none => rfl
      | some t =>
        simp only [Option.map_some']
        rw [applyTo_cons e evs g t.fields]

/-- A list of additions succeeds exactly when every record it writes exists. -/
theorem applyEvents_isSome (evs : List Event) (od : OutData) :
    (applyEvents evs od).isSome ↔ ∀ e ∈ evs, (goLookup od e.1).isSome := by
  induction evs generalizing od with
  | nil => simp [applyEvents_nil]
  | cons e evs ih =>
    rw [applyEvents_cons]
    cases h1 : addField od e.1 e.2.1 e.2.2 with
    | none =>
      have := addField_isSome od e.1 e.2.1 e.2.2
      rw [h1] at this
      simp only [Option.none_bind, Option.isSome_none, List.mem_cons, forall_eq_or_imp]
      rw [← this]
      simp
    | some od1 =>
      have h0 := addField_isSome od e.1 e.2.1 e.2.2
      rw [h1] at h0
      simp only [Option.some_bind, ih, List.mem_cons, forall_eq_or_imp, ← h0, Option.isSome_some,
        true_and]
      have hl : ∀ g, (goLookup od1 g).isSome = (goLookup od g).isSome := by
        intro g
        rw [addField_lookup od od1 _ _ _ h1 g]
        cases goLookup od g <;> rfl
      simp only [hl]

theorem delta_nil (g : geom.Bounds) (k : String) : delta [] g k = 0 := rfl

theorem delta_cons (e : Event) (evs : List Event) (g : geom.Bounds) (k : String) :
    delta (e :: evs) g k = (if e.1 = g ∧ e.2.1 = k then e.2.2 else 0) + delta evs g k := by
  unfold delta
  by_cases h : e.1 = g ∧ e.2.1 = k
  · simp [List.filter_cons, h]
  · simp [List.filter_cons, h]

theorem delta_append (a b : List Event) (g : geom.Bounds) (k : String) :
    delta (a ++ b) g k = delta a g k + delta b g k := by
  simp [delta]

theorem delta_perm {a b : List Event} (h : a.Perm b) (g : geom.Bounds) (k : String) :
    delta a g k = delta b g k :=
  ((h.filter _).map _).sum_eq

theorem touched_perm {a b : List Event} (h : a.Perm b) (g : geom.Bounds) (k : String) :
    touched a g k = touched b g k := by
  unfold touched
  rw [Bool.eq_iff_iff]
  simp only [List.any_eq_true]
  constructor
  · rintro ⟨e, he, hp⟩; exact ⟨e, h.mem_iff.1 he, hp⟩
  · rintro ⟨e, he, hp⟩; exact ⟨e, h.mem_iff.2 he, hp⟩

/-- The value of a field after a list of additions: the old value plus the values added. -/
theorem applyTo_get (evs : List Event) (g : geom.Bounds) (f : Fields) (k : String) :
    (applyTo evs g f).get k = f.get k + delta evs g k := by
  induction evs generalizing f with
  | nil => simp [applyTo, delta_nil]
  | cons e evs ih =>
    rw [applyTo_cons, ih, delta_cons]
    simp only [applyTo, List.foldl_cons, List.foldl_nil]
    by_cases h1 : e.1 = g
    · by_cases h2 : e.2.1 = k
      · subst h2
        simp [h1, Fields.get_goStore, add_assoc]
      · simp [h1, h2, Fields.get_goStore]
    · simp [h1]

/-- A field is present after a list of additions when it was present or was written. -/
theorem applyTo_isSome (evs : List Event) (g : geom.Bounds) (f : Fields) (k : String) :
    (goLookup (applyTo evs g f) k).isSome = ((goLookup f k).isSome || touched evs g k) := by
  induction evs generalizing f with
  | nil => simp [applyTo, touched]
  | cons e evs ih =>
    rw [applyTo_cons, ih]
    simp only [applyTo, List.foldl_cons, List.foldl_nil, touched, List.any_cons]
    by_cases h1 : e.1 = g
    · by_cases h2 : e.2.1 = k
      · simp [h1, h2, goLookup_goStore]
      · simp [h1, h2, goLookup_goStore]
    · simp [h1]

theorem normalizeFields_cons (wv : Policy) (k0 : String) (ks : List String) (f : Fields) :
    normalizeFields wv (k0 :: ks) f = normalizeFields wv ks (normalizeField wv f k0) := rfl

/-- A field that is not a key of the policy is never written by the normalization. -/
theorem normalizeFields_lookup_of_not_key (wv : Policy) (ks : List String) (f : Fields)
    (k : String) (hk : goLookup wv k = none) :
    goLookup (normalizeFields wv ks f) k = goLookup f k := by
  induction ks generalizing f with
  | nil => rfl
  | cons k0 ks ih =>
    rw [normalizeFields_cons, ih]
    unfold normalizeField
    cases h0 : goLookup wv k0 with
    | none => rfl
    | some w =>
      simp only [goLookup_goStore]
      have : k0 ≠ k := by
        rintro rfl
        rw [hk] at h0
        cases h0
      simp [this]

theorem normalizeFields_get_of_not_key (wv : Policy) (ks : List String) (f : Fields)
    (k : String) (hk : goLookup wv k = none) :
    (normalizeFields wv ks f).get k = f.get k := by
  unfold Fields.get
  rw [normalizeFields_lookup_of_not_key wv ks f k hk]

/-- The bindings after the normalization loop has visited the distinct keys `ks`. -/
theorem normalizeFields_lookup (wv : Policy) (hv : ValidPolicy wv) (ks : List String)
    (hks : ks.Nodup) (f : Fields) (k : String) :
    goLookup (normalizeFields wv ks f) k =
      if k ∈ ks then
        (match goLookup wv k with
          | some w => some (f.get k / f.get w)
          | none => goLookup f k)
      else goLookup f k := by
  induction ks generalizing f with
  | nil => simp [normalizeFields]
  | cons k0 ks ih =>
    rw [List.nodup_cons] at hks
    rw [normalizeFields_cons, ih hks.2]
    have hget : ∀ x, x ≠ k0 → (normalizeField wv f k0).get x = f.get x := by
      intro x hx
      unfold normalizeField
      cases h0 : goLookup wv k0 with
      | none => rfl
      | some w => simp [Fields.get_goStore, Ne.symm hx]
    have hlk : ∀ x, x ≠ k0 → goLookup (normalizeField wv f k0) x = goLookup f x := by
      intro x hx
      unfold normalizeField
      cases h0 : goLookup wv k0 with
      | none => rfl
      | some w => simp [goLookup_goStore, Ne.symm hx]
    by_cases hk : k ∈ ks
    · have hne : k ≠ k0 := by
        rintro rfl
        exact hks.1 hk
      simp only [hk, if_true, List.mem_cons, or_true]
      cases hw : goLookup wv k with
      | none => simp only [hlk k hne]
      | some w =>
        simp only [hget k hne]
        have hwne : (normalizeField wv f k0).get w = f.get w := by
          unfold normalizeField
          cases h0 : goLookup wv k0 with
          | none => rfl
          | some w0 =>
            have : k0 ≠ w := by
              rintro rfl
              rw [hv k k0 hw] at h0
              cases h0
            simp [Fields.get_goStore, this]
        rw [hwne]
    · simp only [hk, if_false, List.mem_cons, or_false]
      by_cases h0 : k = k0
      · subst h0
        simp only [if_true]
        unfold normalizeField
        cases hw : goLookup wv k with
        | none => rfl
        | some w => simp [goLookup_goStore]
      · simp only [h0, if_false]
        exact hlk k h0

/-- The bindings after the normalization of a record, in any visiting order of its keys. -/
theorem normalizeFields_lookup_keys (wv : Policy) (hv : ValidPolicy wv) (f : Fields)
    (ks : List String) (hks : ks.Perm f.keys) (k : String) :
    goLookup (normalizeFields wv ks f) k =
      match goLookup wv k with
      | some w => (goLookup f k).map fun _ => f.get k / f.get w
      | none => goLookup f k := by
  rw [normalizeFields_lookup wv hv ks (hks.nodup_iff.2 f.nodup_keys)]
  have hmem : k ∈ ks ↔ (goLookup f k).isSome := by
    rw [hks.mem_iff, Fields.mem_keys]
  cases hw : goLookup wv k with
  | none => simp
  | some w =>
    cases hf : goLookup f k with
    | none =>
      have : k ∉ ks := by
        rw [hmem, hf]
        simp
      simp [this]
    | some v =>
      have : k ∈ ks := by
        rw [hmem, hf]
        rfl
      simp [this]

/-- The records after the normalization pass. -/
theorem normalize_lookup (wv : Policy) (od : OutData) (g : geom.Bounds) :
    goLookup (normalize wv od) g = (goLookup od g).map fun t =>
      { t with fields := normalizeFields wv t.fields.keys t.fields } := by
  induction od with
  | nil => rfl
  | cons e od ih =>
    obtain ⟨a, t⟩ := e
    have hc : normalize wv ((a, t) :: od) =
        (a, { t with fields := normalizeFields wv t.fields.keys t.fields }) :: normalize wv od :=
      rfl
    rw [hc]
    by_cases h : a = g
    · simp [goLookup, h]
    · simp [goLookup, h, ih]

/-- A field that no addition writes keeps its binding. -/
theorem applyTo_lookup_of_not_touched (evs : List Event) (g : geom.Bounds) (f : Fields)
    (k : String) (h : touched evs g k = false) :
    goLookup (applyTo evs g f) k = goLookup f k := by
  induction evs generalizing f with
  | nil => rfl
  | cons e evs ih =>
    simp only [touched, List.any_cons, Bool.or_eq_false_iff, decide_eq_false_iff_not] at h
    rw [applyTo_cons, ih _ h.2]
    simp only [applyTo, List.foldl_cons, List.foldl_nil]
    by_cases h1 : e.1 = g
    · have h2 : e.2.1 ≠ k := fun h2 => h.1 ⟨h1, h2⟩
      simp [h1, goLookup_goStore, h2]
    · simp [h1]

/-- A record that no addition writes keeps its field map. -/
theorem applyTo_of_not_mem (evs : List Event) (g : geom.Bounds) (f : Fields)
    (h : ∀ e ∈ evs, e.1 ≠ g) : applyTo evs g f = f := by
  induction evs generalizing f with
  | nil => rfl
  | cons e evs ih =>
    rw [applyTo_cons, ih _ (fun e he => h e (List.mem_cons_of_mem _ he))]
    simp [applyTo, h e (List.mem_cons_self _ _)]

/-- The value added to a field by additions that write distinct fields of one record. -/
theorem delta_map_keys (g : geom.Bounds) (c : String → F64) (ks : List String) (hks : ks.Nodup)
    (g' : geom.Bounds) (k : String) :
    delta (ks.map fun x => (g, x, c x)) g' k = if g = g' ∧ k ∈ ks then c k else 0 := by
  induction ks with
  | nil => simp [delta_nil]
  | cons k0 ks ih =>
    rw [List.nodup_cons] at hks
    rw [List.map_cons, delta_cons, ih hks.2]
    by_cases hg : g = g'
    · by_cases h0 : k0 = k
      · subst h0
        simp [hg, hks.1]
      · simp [hg, h0, Ne.symm h0]
    · simp [hg]

theorem touched_map_keys (g : geom.Bounds) (c : String → F64) (ks : List String)
    (g' : geom.Bounds) (k : String) :
    touched (ks.map fun x => (g, x, c x)) g' k = decide (g = g' ∧ k ∈ ks) := by
  rw [Bool.eq_iff_iff]
  simp only [touched, List.any_eq_true, List.mem_map, decide_eq_true_eq]
  constructor
  · rintro ⟨e, ⟨x, hx, rfl⟩, h1, h2⟩
    exact ⟨h1, h2 ▸ hx⟩
  · rintro ⟨h1, h2⟩
    exact ⟨_, ⟨k, h2, rfl⟩, h1, rfl⟩

theorem delta_pairEvents (G : Geometry) (wv : Policy) (r : inRec) (rArea : ℚ) (p : outRec)
    (g : geom.Bounds) (k : String) :
    delta (pairEvents G wv r rArea p) g k =
      if G.Bounds p.Polygon = g ∧ (goLookup r.fields k).isSome then
        contribution wv r (G.IntersectionArea r.Polygonal p.Polygon) rArea k
      else 0 := by
  unfold pairEvents
  rw [delta_map_keys _ _ _ r.fields.nodup_keys]
  simp only [Fields.mem_keys]

theorem touched_pairEvents (G : Geometry) (wv : Policy) (r : inRec) (rArea : ℚ) (p : outRec)
    (g : geom.Bounds) (k : String) :
    touched (pairEvents G wv r rArea p) g k =
      decide (G.Bounds p.Polygon = g ∧ (goLookup r.fields k).isSome) := by
  unfold pairEvents
  rw [touched_map_keys]
  simp only [Fields.mem_keys]

theorem pairEvents_key (G : Geometry) (wv : Policy) (r : inRec) (rArea : ℚ) (p : outRec)
    (e : Event) (he : e ∈ pairEvents G wv r rArea p) : e.1 = G.Bounds p.Polygon := by
  unfold pairEvents at he
  rw [List.mem_map] at he
  obtain ⟨x, _, rfl⟩ := he
  rfl

/-- The effect of visiting one pair of a source record and a candidate whose bounds key a
record of `outData`. -/
theorem visitPair_effect (G : Geometry) (weightVars : Policy) (r : inRec) (rArea : ℚ)
    (p : outRec) (outData : OutData) (t : outRec)
    (ht : goLookup outData (G.Bounds p.Polygon) = some t) :
    ∃ out t', visitPair G weightVars r rArea p outData = some out ∧
      goLookup out (G.Bounds p.Polygon) = some t' ∧ t'.Polygon = t.Polygon ∧
      (∀ k, (goLookup r.fields k).isSome →
        t'.fields.get k = t.fields.get k +
          match goLookup weightVars k with
          | some w => r.fields.get k * r.fields.get w
          | none =>
            r.fields.get k *
              (F64.fin (G.IntersectionArea r.Polygonal p.Polygon) / F64.fin rArea)) ∧
      (∀ k, goLookup r.fields k = none → goLookup t'.fields k = goLookup t.fields k) ∧
      (∀ g, g ≠ G.Bounds p.Polygon → goLookup out g = goLookup outData g) := by
  have hsome : (applyEvents (pairEvents G weightVars r rArea p) outData).isSome := by
    rw [applyEvents_isSome]
    intro e he
    rw [pairEvents_key G weightVars r rArea p e he, ht]
    rfl
  obtain ⟨out, hout⟩ := Option.isSome_iff_exists.1 hsome
  have hl := applyEvents_lookup _ _ _ hout
  refine ⟨out, ⟨t.Polygon, applyTo (pairEvents G weightVars r rArea p)
    (G.Bounds p.Polygon) t.fields⟩, by rw [visitPair_eq, hout], ?_, rfl, ?_, ?_, ?_⟩
  · rw [hl, ht]
    rfl
  · intro k hk
    simp only
    rw [applyTo_get, delta_pairEvents]
    simp only [hk, and_self, if_true]
    rfl
  · intro k hk
    apply applyTo_lookup_of_not_touched
    rw [touched_pairEvents, hk]
    simp
  · intro g hg
    rw [hl]
    cases hc : goLookup outData g with
    | none => rfl
    | some t0 =>
      simp only [Option.map_some', Option.some.injEq]
      rw [applyTo_of_not_mem]
      intro e he
      rw [pairEvents_key G weightVars r rArea p e he]
      exact Ne.symm hg

theorem validPolicy_weightVars : ValidPolicy weightVars := by
  intro k w h
  unfold weightVars at h ⊢
  simp only [goLookup] at h ⊢
  split_ifs at h
  cases h
  decide

theorem validPolicy_exPolicy : ValidPolicy exPolicy := by
  intro k w h
  unfold exPolicy at h ⊢
  simp only [goLookup] at h ⊢
  split_ifs at h
  cases h
  decide

theorem Fields.get_of_lookup (f : Fields) (k : String) (v : F64) (h : goLookup f k = some v) :
    f.get k = v := by
  unfold Fields.get
  rw [h]

/-- Claim C2, the normalization pass of `Run`.  For a policy in which no denominator is itself
a key, the pass replaces the record `t` under `g` by its normalized record, and for whatever
order `ks` in which the fields of `t` are visited: the bindings are those of the order used by
the pass (so the result does not depend on the order), and every field `k` of `t` ends as
`accumulated[k] / accumulated[w]` when the policy maps `k` to `w`, which is the exact quotient
`a / b` when the two accumulated values are the numbers `a` and `b` with `b` non-zero, and as
`accumulated[k]`, unchanged, when `k` is not a key of the policy. -/
theorem normalize_rule (weightVars : Policy) (hv : ValidPolicy weightVars) (outData : OutData)
    (g : geom.Bounds) (t : outRec) (ht : goLookup outData g = some t)
    (ks : List String) (hks : ks.Perm t.fields.keys) :
    goLookup (normalize weightVars outData) g =
        some { t with fields := normalizeFields weightVars t.fields.keys t.fields } ∧
      (∀ k, goLookup (normalizeFields weightVars ks t.fields) k =
        goLookup (normalizeFields weightVars t.fields.keys t.fields) k) ∧
      ∀ k, (goLookup t.fields k).isSome →
        ((normalizeFields weightVars ks t.fields).get k =
          match goLookup weightVars k with
          | some w => t.fields.get k / t.fields.get w
          | none => t.fields.get k) ∧
        ∀ w a b, goLookup weightVars k = some w → t.fields.get k = F64.fin a →
          t.fields.get w = F64.fin b → b ≠ 0 →
          (normalizeFields weightVars ks t.fields).get k = F64.fin (a / b) := by
  have hget : ∀ k, (goLookup t.fields k).isSome →
      (normalizeFields weightVars ks t.fields).get k =
        match goLookup weightVars k with
        | some w => t.fields.get k / t.fields.get w
        | none => t.fields.get k := by
    intro k hk
    obtain ⟨v, hv'⟩ := Option.isSome_iff_exists.1 hk
    have h1 := normalizeFields_lookup_keys weightVars hv t.fields ks hks k
    cases hw : goLookup weightVars k with
    | none =>
      rw [hw] at h1
      simp only
      rw [Fields.get_of_lookup _ k v (h1.trans hv'), Fields.get_of_lookup _ k v hv']
    | some w =>
      rw [hw, hv'] at h1
      exact Fields.get_of_lookup _ k _ h1
  refine ⟨?_, ?_, ?_⟩
  · rw [normalize_lookup, ht]
    rfl
  · intro k
    rw [normalizeFields_lookup_keys weightVars hv t.fields ks hks k,
      normalizeFields_lookup_keys weightVars hv t.fields _ (List.Perm.refl _) k]
  · intro k hk
    refine ⟨hget k hk, ?_⟩
    intro w a b hw ha hb hb0
    rw [hget k hk, hw]
    simp only
    rw [ha, hb, F64.fin_div_fin a b hb0]

/-- The statement of C2 on the totals of the example scenario, visiting `pop` before
`pm25`. -/
theorem normalize_rule_witness :
    goLookup [(envelope polyT, (⟨polyT, [("pm25", F64.fin 650), ("pop", F64.fin 70)]⟩ : outRec))]
        (envelope polyT) = some ⟨polyT, [("pm25", F64.fin 650), ("pop", F64.fin 70)]⟩ ∧
      ["pop", "pm25"].Perm
        (Fields.keys [("pm25", F64.fin 650), ("pop", F64.fin 70)]) ∧
      (normalizeFields exPolicy ["pop", "pm25"] [("pm25", F64.fin 650), ("pop", F64.fin 70)]).get
        "pm25" = F64.fin (650 / 70) ∧
      (normalizeFields exPolicy ["pop", "pm25"] [("pm25", F64.fin 650), ("pop", F64.fin 70)]).get
        "pop" = F64.fin 70 :=
  have h := normalize_rule exPolicy validPolicy_exPolicy
    [(envelope polyT, ⟨polyT, [("pm25", F64.fin 650), ("pop", F64.fin 70)]⟩)] (envelope polyT)
    ⟨polyT, [("pm25", F64.fin 650), ("pop", F64.fin 70)]⟩ (by decide!) ["pop", "pm25"]
    (by decide!)
  ⟨by decide!, by decide!,
    (h.2.2 "pm25" (by decide!)).2 "pop" 650 70 (by decide!) (by decide!) (by decide!)
      (by norm_num),
    (h.2.2 "pop" (by decide!)).1⟩

/-- Claim C1, the per-field update rule of the accumulation loop of `Run`.  Visiting the pair
of a source record `r` (of area `rArea`) and a candidate `p` whose bounds key the record `t` of
`outData` succeeds, and in the record under that key: every field `k` of `r` grows by exactly
`r.fields[k] * r.fields[w]` when the policy maps `k` to `w`, and by exactly
`r.fields[k] * (isectArea / rArea)` when `k` is not a key of the policy; a field name that `r`
does not have keeps its binding; the polygon is kept; and every record under another key is
unchanged. -/
theorem visitPair_update_rule (G : Geometry) (weightVars : Policy) (r : inRec) (rArea : ℚ)
    (p : outRec) (outData : OutData) (t : outRec)
    (ht : goLookup outData (G.Bounds p.Polygon) = some t) :
    ∃ out t', visitPair G weightVars r rArea p outData = some out ∧
      goLookup out (G.Bounds p.Polygon) = some t' ∧ t'.Polygon = t.Polygon ∧
      (∀ k, (goLookup r.fields k).isSome →
        t'.fields.get k = t.fields.get k +
          match goLookup weightVars k with
          | some w => r.fields.get k * r.fields.get w
          | none =>
            r.fields.get k *
              (F64.fin (G.IntersectionArea r.Polygonal p.Polygon) / F64.fin rArea)) ∧
      (∀ k, goLookup r.fields k = none → goLookup t'.fields k = goLookup t.fields k) ∧
      (∀ g, g ≠ G.Bounds p.Polygon → goLookup out g = goLookup outData g) :=
  visitPair_effect G weightVars r rArea p outData t ht

/-- The example scenario of the specification: the rule of C1 at source `A` and target `T`,
and the totals `T.pop = 70` and `T.pm25 = 650` after both sources have been accumulated. -/
theorem visitPair_update_rule_witness :
    goLookup (emptyOut [polyT]) (exGeometry.Bounds (target polyT).Polygon) =
        some (target polyT) ∧
      (∃ out t', visitPair exGeometry exPolicy recA 10 (target polyT) (emptyOut [polyT]) =
          some out ∧
        goLookup out (exGeometry.Bounds (target polyT).Polygon) = some t' ∧
        t'.Polygon = (target polyT).Polygon ∧
        (∀ k, (goLookup recA.fields k).isSome →
          t'.fields.get k = (target polyT).fields.get k +
            match goLookup exPolicy k with
            | some w => recA.fields.get k * recA.fields.get w
            | none =>
              recA.fields.get k *
                (F64.fin (exGeometry.IntersectionArea recA.Polygonal (target polyT).Polygon) /
                  F64.fin 10)) ∧
        (∀ k, goLookup recA.fields k = none →
          goLookup t'.fields k = goLookup (target polyT).fields k) ∧
        (∀ g, g ≠ exGeometry.Bounds (target polyT).Polygon →
          goLookup out g = goLookup (emptyOut [polyT]) g)) ∧
      exGeometry.Area polyA = 10 ∧ exGeometry.Area polyB = 10 ∧
      exGeometry.IntersectionArea polyA polyT = 4 ∧
      exGeometry.IntersectionArea polyB polyT = 6 ∧
      (accumulate exGeometry exPolicy [target polyT] [recA, recB] (emptyOut [polyT])).map
          (fun out => (fieldValue out (envelope polyT) "pop",
            fieldValue out (envelope polyT) "pm25")) =
        some (F64.fin 70, F64.fin 650) :=
  ⟨by decide!,
    visitPair_update_rule exGeometry exPolicy recA 10 (target polyT) (emptyOut [polyT])
      (target polyT) (by decide!),
    by decide!, by decide!, by decide!, by decide!, by decide!⟩

theorem delta_flatMap {α : Type} (f : α → List Event) (l : List α) (g : geom.Bounds)
    (k : String) :
    delta (l.flatMap f) g k = (l.map fun p => delta (f p) g k).sum := by
  induction l with
  | nil => rfl
  | cons a l ih => rw [List.flatMap_cons, delta_append, ih, List.map_cons, List.sum_cons]

theorem sum_ite_of_nodup {α β : Type} [DecidableEq β] (key : α → β) (c : α → F64) (l : List α)
    (hl : (l.map key).Nodup) (p : α) (hp : p ∈ l) :
    (l.map fun q => if key q = key p then c q else 0).sum = c p := by
  induction l with
  | nil => cases hp
  | cons a l ih =>
    rw [List.map_cons, List.nodup_cons] at hl
    rw [List.map_cons, List.sum_cons]
    rcases List.mem_cons.1 hp with rfl | hp'
    · have hz : (l.map fun q => if key q = key p then c q else 0) = l.map fun _ => 0 := by
        apply List.map_congr_left
        intro q hq
        have : key q ≠ key p := fun h => hl.1 (h ▸ List.mem_map_of_mem key hq)
        simp [this]
      rw [hz]
      simp
    · have : key a ≠ key p := fun h => hl.1 (h ▸ List.mem_map_of_mem key hp')
      rw [ih hl.2 hp']
      simp [this]

theorem sum_map_fin {α : Type} (f : α → ℚ) (l : List α) :
    (l.map fun p => F64.fin (f p)).sum = F64.fin (l.map f).sum := by
  induction l with
  | nil => rfl
  | cons a l ih => rw [List.map_cons, List.sum_cons, ih, List.map_cons, List.sum_cons,
      F64.fin_add_fin]

theorem recordEvents_key (G : Geometry) (wv : Policy) (tree : List outRec) (r : inRec)
    (e : Event) (he : e ∈ recordEvents G wv tree r) :
    ∃ p ∈ G.SearchIntersect tree (G.Bounds r.Polygonal), e.1 = G.Bounds p.Polygon := by
  unfold recordEvents at he
  rw [List.mem_flatMap] at he
  obtain ⟨p, hp, hep⟩ := he
  exact ⟨p, hp, pairEvents_key G wv r _ p e hep⟩

theorem allEvents_single (G : Geometry) (wv : Policy) (tree : List outRec) (r : inRec) :
    allEvents G wv tree [r] = recordEvents G wv tree r := by
  simp [allEvents]

theorem fieldValue_of_lookup (od : OutData) (g : geom.Bounds) (t : outRec) (k : String)
    (h : goLookup od g = some t) : fieldValue od g k = t.fields.get k := by
  unfold fieldValue
  rw [h]

/-- The value of an extensive field after accumulation and normalization. -/
theorem fieldValue_normalize_of_not_key (wv : Policy) (evs : List Event) (od acc : OutData)
    (hacc : applyEvents evs od = some acc) (g : geom.Bounds) (t : outRec)
    (ht : goLookup od g = some t) (k : String) (hk : goLookup wv k = none) :
    fieldValue (normalize wv acc) g k = t.fields.get k + delta evs g k := by
  have h1 : goLookup (normalize wv acc) g = some
      { Polygon := t.Polygon,
        fields := normalizeFields wv (applyTo evs g t.fields).keys (applyTo evs g t.fields) } := by
    rw [normalize_lookup, applyEvents_lookup evs od acc hacc g, ht]
    rfl
  rw [fieldValue_of_lookup _ _ _ _ h1]
  simp only
  rw [normalizeFields_get_of_not_key wv _ _ k hk, applyTo_get]

/-- Claim C3, conservation.  One source record `r` of positive area is accumulated into target
records whose accumulators for the extensive field `k` (not a key of the policy) start at
zero; the candidates that the tree returns for `r` are keyed in `outData` under pairwise
distinct bounds, and their intersection areas with `r` sum to the area of `r`.  Then the
accumulation succeeds, and after the normalization the values of `k` in the candidates sum to
`r.fields[k]` exactly. -/
theorem conservation (G : Geometry) (weightVars : Policy) (polygonTree : List outRec)
    (r : inRec) (outData : OutData) (k : String) (v : ℚ)
    (hArea : 0 < G.Area r.Polygonal)
    (hk : goLookup weightVars k = none)
    (hv : r.fields.get k = F64.fin v)
    (hzero : ∀ g t, goLookup outData g = some t → t.fields.get k = 0)
    (hkeyed : ∀ p ∈ G.SearchIntersect polygonTree (G.Bounds r.Polygonal),
      (goLookup outData (G.Bounds p.Polygon)).isSome)
    (hdistinct : ((G.SearchIntersect polygonTree (G.Bounds r.Polygonal)).map
      fun p => G.Bounds p.Polygon).Nodup)
    (hcover : ((G.SearchIntersect polygonTree (G.Bounds r.Polygonal)).map
      fun p => G.IntersectionArea r.Polygonal p.Polygon).sum = G.Area r.Polygonal) :
    ∃ acc, accumulate G weightVars polygonTree [r] outData = some acc ∧
      ((G.SearchIntersect polygonTree (G.Bounds r.Polygonal)).map
        fun p => fieldValue (normalize weightVars acc) (G.Bounds p.Polygon) k).sum =
          F64.fin v := by
  have hne : G.Area r.Polygonal ≠ 0 := ne_of_gt hArea
  have hsome : (applyEvents (recordEvents G weightVars polygonTree r) outData).isSome := by
    rw [applyEvents_isSome]
    intro e he
    obtain ⟨p, hp, hep⟩ := recordEvents_key G weightVars polygonTree r e he
    rw [hep]
    exact hkeyed p hp
  obtain ⟨acc, hacc⟩ := Option.isSome_iff_exists.1 hsome
  refine ⟨acc, by rw [accumulate_eq, allEvents_single, hacc], ?_⟩
  have hpair : ∀ (q : outRec) (g : geom.Bounds),
      delta (pairEvents G weightVars r (G.Area r.Polygonal) q) g k =
        if G.Bounds q.Polygon = g then
          F64.fin (v * (G.IntersectionArea r.Polygonal q.Polygon / G.Area r.Polygonal))
        else 0 := by
    intro q g
    rw [delta_pairEvents]
    by_cases hg : G.Bounds q.Polygon = g
    · simp only [hg, true_and, if_true]
      cases hl : goLookup r.fields k with
      | none =>
        have h0 : r.fields.get k = 0 := by
          unfold Fields.get
          rw [hl]
        rw [h0, F64.zero_def] at hv
        have hv0 : v = 0 := by
          injection hv with h
          exact h.symm
        simp [hv0, F64.zero_def]
      | some x =>
        simp only [Option.isSome_some, if_true]
        unfold contribution
        rw [hk]
        simp only
        rw [hv, F64.fin_div_fin _ _ hne, F64.fin_mul_fin]
    · simp [hg]
  have hval : ∀ p ∈ G.SearchIntersect polygonTree (G.Bounds r.Polygonal),
      fieldValue (normalize weightVars acc) (G.Bounds p.Polygon) k =
        F64.fin (v * (G.IntersectionArea r.Polygonal p.Polygon / G.Area r.Polygonal)) := by
    intro p hp
    obtain ⟨t, ht⟩ := Option.isSome_iff_exists.1 (hkeyed p hp)
    rw [fieldValue_normalize_of_not_key weightVars _ outData acc hacc _ t ht k hk,
      hzero _ t ht, zero_add]
    unfold recordEvents
    rw [delta_flatMap]
    simp only [hpair]
    exact sum_ite_of_nodup (fun q : outRec => G.Bounds q.Polygon)
      (fun q => F64.fin (v * (G.IntersectionArea r.Polygonal q.Polygon / G.Area r.Polygonal)))
      _ hdistinct p hp
  rw [List.map_congr_left hval, sum_map_fin]
  congr 1
  have hs : ((G.SearchIntersect polygonTree (G.Bounds r.Polygonal)).map fun p =>
      v * (G.IntersectionArea r.Polygonal p.Polygon / G.Area r.Polygonal)).sum =
      v * (((G.SearchIntersect polygonTree (G.Bounds r.Polygonal)).map fun p =>
        G.IntersectionArea r.Polygonal p.Polygon).sum / G.Area r.Polygonal) := by
    generalize G.SearchIntersect polygonTree (G.Bounds r.Polygonal) = l
    induction l with
    | nil => simp
    | cons a l ih =>
      simp only [List.map_cons, List.sum_cons, ih]
      ring
  rw [hs, hcover, div_self hne, mul_one]

theorem emptyOut_fields (ps : List geom.Polygon) (g : geom.Bounds) (t : outRec)
    (h : goLookup (emptyOut ps) g = some t) : t.fields = [] := by
  induction ps with
  | nil => cases h
  | cons p ps ih =>
    have hc : emptyOut (p :: ps) = (envelope p, target p) :: emptyOut ps := rfl
    rw [hc] at h
    simp only [goLookup] at h
    split_ifs at h
    · cases h
      rfl
    · exact ih h

/-- The statement of C3 at source `A` and the targets `T`, `U`, `V`, which `A` meets in the
areas 4, 6 and 0: the population 100 of `A` is found again in the three targets. -/
theorem conservation_witness :
    0 < exGeometry.Area recA.Polygonal ∧ goLookup exPolicy "pop" = none ∧
      recA.fields.get "pop" = F64.fin 100 ∧
      exGeometry.SearchIntersect exTree (exGeometry.Bounds recA.Polygonal) = exTree ∧
      (exTree.map fun p => exGeometry.IntersectionArea recA.Polygonal p.Polygon) = [4, 6, 0] ∧
      ∃ acc, accumulate exGeometry exPolicy exTree [recA] (emptyOut exTargets) = some acc ∧
        ((exGeometry.SearchIntersect exTree (exGeometry.Bounds recA.Polygonal)).map
          fun p => fieldValue (normalize exPolicy acc) (exGeometry.Bounds p.Polygon) "pop").sum =
            F64.fin 100 :=
  ⟨by decide!, by decide!, by decide!, by decide!, by decide!,
    conservation exGeometry exPolicy exTree recA (emptyOut exTargets) "pop" 100 (by decide!)
      (by decide!) (by decide!)
      (fun g t h => by rw [emptyOut_fields exTargets g t h]; rfl)
      (by decide!) (by decide!) (by decide!)⟩

theorem Fields.get_of_lookup_none (f : Fields) (k : String) (h : goLookup f k = none) :
    f.get k = 0 := by
  unfold Fields.get
  rw [h]

/-- The value of a weighted-average field after accumulation and normalization, when the
record ends with that field. -/
theorem fieldValue_normalize_of_key (wv : Policy) (hpol : ValidPolicy wv) (evs : List Event)
    (od acc : OutData) (hacc : applyEvents evs od = some acc) (g : geom.Bounds) (t : outRec)
    (ht : goLookup od g = some t) (k w : String) (hk : goLookup wv k = some w)
    (hpres : ((goLookup t.fields k).isSome || touched evs g k) = true) :
    fieldValue (normalize wv acc) g k =
      (t.fields.get k + delta evs g k) / (t.fields.get w + delta evs g w) := by
  have h1 : goLookup (normalize wv acc) g = some
      { Polygon := t.Polygon,
        fields := normalizeFields wv (applyTo evs g t.fields).keys (applyTo evs g t.fields) } := by
    rw [normalize_lookup, applyEvents_lookup evs od acc hacc g, ht]
    rfl
  rw [fieldValue_of_lookup _ _ _ _ h1]
  simp only
  have h2 := normalizeFields_lookup_keys wv hpol (applyTo evs g t.fields) _ (List.Perm.refl _) k
  rw [hk] at h2
  simp only at h2
  rw [← applyTo_isSome] at hpres
  obtain ⟨x, hx⟩ := Option.isSome_iff_exists.1 hpres
  rw [hx] at h2
  rw [Fields.get_of_lookup _ k _ h2, applyTo_get, applyTo_get]

theorem delta_eq_zero_of_keys (evs : List Event) (g : geom.Bounds) (k : String)
    (h : ∀ e ∈ evs, e.1 ≠ g) : delta evs g k = 0 := by
  induction evs with
  | nil => rfl
  | cons e evs ih =>
    rw [delta_cons, ih (fun x hx => h x (List.mem_cons_of_mem _ hx))]
    simp [h e (List.mem_cons_self _ _)]

/-- Among the additions of a list of visits, only those of the one visit that writes the
record under `g` count for that record. -/
theorem delta_flatMap_isolated {α : Type} (f : α → List Event) (l1 l2 : List α) (a : α)
    (g : geom.Bounds) (k : String) (h : ∀ b ∈ l1 ++ l2, ∀ e ∈ f b, e.1 ≠ g) :
    delta ((l1 ++ a :: l2).flatMap f) g k = delta (f a) g k := by
  have h1 : delta (l1.flatMap f) g k = 0 := by
    apply delta_eq_zero_of_keys
    intro e he
    obtain ⟨b, hb, heb⟩ := List.mem_flatMap.1 he
    exact h b (List.mem_append_left _ hb) e heb
  have h2 : delta (l2.flatMap f) g k = 0 := by
    apply delta_eq_zero_of_keys
    intro e he
    obtain ⟨b, hb, heb⟩ := List.mem_flatMap.1 he
    exact h b (List.mem_append_right _ hb) e heb
  rw [List.flatMap_append, List.flatMap_cons, delta_append, delta_append, h1, h2, zero_add,
    add_zero]

theorem touched_of_mem (evs : List Event) (g : geom.Bounds) (k : String) (e : Event)
    (he : e ∈ evs) (h1 : e.1 = g) (h2 : e.2.1 = k) : touched evs g k = true := by
  unfold touched
  rw [List.any_eq_true]
  exact ⟨e, he, by simp [h1, h2]⟩

/-- Claim C7 as amended, the weighted average in a target that is a candidate of exactly one
source record.  The source records are `pre`, then `r`, then `post`; the candidates of `r`
are `c1`, then `p`, then `c2`; no other candidate of `r` and no candidate of another record
has the bounds of `p`, and every candidate is keyed in `outData`.  The record under the
bounds of `p` starts with zero in the weighted-average field `k` and in its denominator `w`
(the policy has no denominator among its keys); `r` has positive area, meets `p` in a
positive area, and holds the numbers `a` under `k` and `b`, non-zero, under `w`.  Then the
accumulation succeeds, and after accumulation and normalization the field `k` of the target is
`a * rArea / isectArea`: it is `a` when the intersection area equals the area of `r`, and
it is not `a` when the intersection area is smaller and `a` is not zero. -/
theorem weighted_average_single_source (G : Geometry) (weightVars : Policy)
    (polygonTree : List outRec) (pre post : List inRec) (r : inRec) (c1 c2 : List outRec)
    (p : outRec) (outData : OutData) (t : outRec) (k w : String) (a b : ℚ)
    (hpol : ValidPolicy weightVars)
    (hcand : G.SearchIntersect polygonTree (G.Bounds r.Polygonal) = c1 ++ p :: c2)
    (hcands : ∀ q ∈ c1 ++ c2, G.Bounds q.Polygon ≠ G.Bounds p.Polygon)
    (hothers : ∀ r' ∈ pre ++ post,
      ∀ q ∈ G.SearchIntersect polygonTree (G.Bounds r'.Polygonal),
        G.Bounds q.Polygon ≠ G.Bounds p.Polygon)
    (hkeyed : ∀ r' ∈ pre ++ r :: post,
      ∀ q ∈ G.SearchIntersect polygonTree (G.Bounds r'.Polygonal),
        (goLookup outData (G.Bounds q.Polygon)).isSome)
    (ht : goLookup outData (G.Bounds p.Polygon) = some t)
    (hzk : t.fields.get k = 0) (hzw : t.fields.get w = 0)
    (hArea : 0 < G.Area r.Polygonal)
    (hA : 0 < G.IntersectionArea r.Polygonal p.Polygon)
    (hkw : goLookup weightVars k = some w)
    (ha : goLookup r.fields k = some (F64.fin a))
    (hb : r.fields.get w = F64.fin b) (hb0 : b ≠ 0) :
    ∃ acc, accumulate G weightVars polygonTree (pre ++ r :: post) outData = some acc ∧
      fieldValue (normalize weightVars acc) (G.Bounds p.Polygon) k =
        F64.fin (a * G.Area r.Polygonal / G.IntersectionArea r.Polygonal p.Polygon) ∧
      (G.IntersectionArea r.Polygonal p.Polygon = G.Area r.Polygonal →
        fieldValue (normalize weightVars acc) (G.Bounds p.Polygon) k = F64.fin a) ∧
      (G.IntersectionArea r.Polygonal p.Polygon < G.Area r.Polygonal → a ≠ 0 →
        fieldValue (normalize weightVars acc) (G.Bounds p.Polygon) k ≠ F64.fin a) := by
  have hne : G.Area r.Polygonal ≠ 0 := ne_of_gt hArea
  have hAne : G.IntersectionArea r.Polygonal p.Polygon ≠ 0 := ne_of_gt hA
  have hsome : (applyEvents (allEvents G weightVars polygonTree (pre ++ r :: post))
      outData).isSome := by
    rw [applyEvents_isSome]
    intro e he
    unfold allEvents at he
    obtain ⟨r', hr', her'⟩ := List.mem_flatMap.1 he
    obtain ⟨q, hq, heq⟩ := recordEvents_key G weightVars polygonTree r' e her'
    rw [heq]
    exact hkeyed r' hr' q hq
  obtain ⟨acc, hacc⟩ := Option.isSome_iff_exists.1 hsome
  have hrec : ∀ x, delta (recordEvents G weightVars polygonTree r) (G.Bounds p.Polygon) x =
      delta (pairEvents G weightVars r (G.Area r.Polygonal) p) (G.Bounds p.Polygon) x := by
    intro x
    unfold recordEvents
    rw [hcand]
    apply delta_flatMap_isolated
    intro q hq e he
    rw [pairEvents_key G weightVars r _ q e he]
    exact hcands q hq
  have hdelta : ∀ x, delta (allEvents G weightVars polygonTree (pre ++ r :: post))
      (G.Bounds p.Polygon) x =
      delta (pairEvents G weightVars r (G.Area r.Polygonal) p) (G.Bounds p.Polygon) x := by
    intro x
    rw [← hrec x]
    unfold allEvents
    apply delta_flatMap_isolated
    intro r' hr' e he
    obtain ⟨q, hq, heq⟩ := recordEvents_key G weightVars polygonTree r' e he
    rw [heq]
    exact hothers r' hr' q hq
  have hwpres : (goLookup r.fields w).isSome = true := by
    cases hl : goLookup r.fields w with
    | none =>
      rw [Fields.get_of_lookup_none _ _ hl, F64.zero_def] at hb
      injection hb with h
      exact absurd h.symm hb0
    | some x => rfl
  have htouch : touched (allEvents G weightVars polygonTree (pre ++ r :: post))
      (G.Bounds p.Polygon) k = true := by
    apply touched_of_mem _ _ _
      (G.Bounds p.Polygon, k,
        contribution weightVars r (G.IntersectionArea r.Polygonal p.Polygon)
          (G.Area r.Polygonal) k)
    · unfold allEvents
      rw [List.mem_flatMap]
      refine ⟨r, by simp, ?_⟩
      unfold recordEvents
      rw [List.mem_flatMap]
      refine ⟨p, by rw [hcand]; simp, ?_⟩
      unfold pairEvents
      rw [List.mem_map]
      exact ⟨k, (Fields.mem_keys _ _).2 (by rw [ha]; rfl), rfl⟩
    · rfl
    · rfl
  have hval : fieldValue (normalize weightVars acc) (G.Bounds p.Polygon) k =
      F64.fin (a * G.Area r.Polygonal / G.IntersectionArea r.Polygonal p.Polygon) := by
    rw [fieldValue_normalize_of_key weightVars hpol _ outData acc hacc _ t ht k w hkw]
    · rw [hzk, hzw, zero_add, zero_add, hdelta, hdelta, delta_pairEvents, delta_pairEvents]
      simp only [true_and, ha, Option.isSome_some, if_true, hwpres]
      unfold contribution
      rw [hkw, hpol k w hkw]
      simp only
      rw [Fields.get_of_lookup _ k _ ha, hb, F64.fin_div_fin _ _ hne, F64.fin_mul_fin,
        F64.fin_mul_fin, F64.fin_div_fin]
      · congr 1
        field_simp
        ring
      · exact mul_ne_zero hb0 (div_ne_zero hAne hne)
    · rw [htouch]
      simp
  refine ⟨acc, by rw [accumulate_eq, hacc], hval, ?_, ?_⟩
  · intro heq
    rw [hval, heq, mul_div_assoc, div_self hne, mul_one]
  · intro hlt ha0 hc
    rw [hval] at hc
    injection hc with hc
    rw [div_eq_iff hAne] at hc
    have := mul_left_cancel₀ ha0 hc
    exact absurd this (ne_of_gt hlt)

/-- The statement of C7 as amended on the example scenario.  With the sources `A`, `B` and
the targets `T`, `U`, `V`, the target `U` is a candidate of `A` only, and lies inside it
(intersection area 6 of 10): its `pm25` is `5 * 10 / 6`.  With the source `A` alone and the
target `W`, which contains `A`, the `pm25` of `W` is the value 5 of `A`. -/
theorem weighted_average_single_source_witness :
    (exGeometry.SearchIntersect exTree (exGeometry.Bounds recA.Polygonal) =
        [target polyT] ++ target polyU :: [target polyV] ∧
      exGeometry.IntersectionArea recA.Polygonal (target polyU).Polygon = 6 ∧
      exGeometry.Area recA.Polygonal = 10 ∧
      ∃ acc, accumulate exGeometry exPolicy exTree ([] ++ recA :: [recB])
          (emptyOut exTargets) = some acc ∧
        fieldValue (normalize exPolicy acc) (exGeometry.Bounds (target polyU).Polygon) "pm25" =
          F64.fin (5 * exGeometry.Area recA.Polygonal /
            exGeometry.IntersectionArea recA.Polygonal (target polyU).Polygon) ∧
        (exGeometry.IntersectionArea recA.Polygonal (target polyU).Polygon =
            exGeometry.Area recA.Polygonal →
          fieldValue (normalize exPolicy acc) (exGeometry.Bounds (target polyU).Polygon)
            "pm25" = F64.fin 5) ∧
        (exGeometry.IntersectionArea recA.Polygonal (target polyU).Polygon <
            exGeometry.Area recA.Polygonal → (5 : ℚ) ≠ 0 →
          fieldValue (normalize exPolicy acc) (exGeometry.Bounds (target polyU).Polygon)
            "pm25" ≠ F64.fin 5)) ∧
      (exGeometry.IntersectionArea recA.Polygonal (target polyW).Polygon =
          exGeometry.Area recA.Polygonal ∧
        ∃ acc, accumulate exGeometry exPolicy [target polyW] ([] ++ recA :: [])
            (emptyOut [polyW]) = some acc ∧
          fieldValue (normalize exPolicy acc) (exGeometry.Bounds (target polyW).Polygon)
            "pm25" =
            F64.fin (5 * exGeometry.Area recA.Polygonal /
              exGeometry.IntersectionArea recA.Polygonal (target polyW).Polygon) ∧
          (exGeometry.IntersectionArea recA.Polygonal (target polyW).Polygon =
              exGeometry.Area recA.Polygonal →
            fieldValue (normalize exPolicy acc) (exGeometry.Bounds (target polyW).Polygon)
              "pm25" = F64.fin 5) ∧
          (exGeometry.IntersectionArea recA.Polygonal (target polyW).Polygon <
              exGeometry.Area recA.Polygonal → (5 : ℚ) ≠ 0 →
            fieldValue (normalize exPolicy acc) (exGeometry.Bounds (target polyW).Polygon)
              "pm25" ≠ F64.fin 5)) :=
  ⟨⟨by decide!, by decide!, by decide!,
      weighted_average_single_source exGeometry exPolicy exTree [] [recB] recA [target polyT]
        [target polyV] (target polyU) (emptyOut exTargets) (target polyU) "pm25" "pop" 5 100
        validPolicy_exPolicy (by decide!) (by decide!) (by decide!) (by decide!) (by decide!)
        (by decide!) (by decide!) (by decide!) (by decide!) (by decide!) (by decide!)
        (by decide!) (by norm_num)⟩,
    ⟨by decide!,
      weighted_average_single_source exGeometry exPolicy [target polyW] [] [] recA [] []
        (target polyW) (emptyOut [polyW]) (target polyW) "pm25" "pop" 5 100
        validPolicy_exPolicy (by decide!) (by decide!) (by decide!) (by decide!) (by decide!)
        (by decide!) (by decide!) (by decide!) (by decide!) (by decide!) (by decide!)
        (by decide!) (by norm_num)⟩⟩

/-- Claim C7 as stated fails, in two ways.  First, the value: with the sources `A`, `B` and
the targets `T`, `U`, `V`, the target `U = [0,3] x [0,2]` lies inside `A = [0,5] x [0,2]`,
which it meets in its own area 6 of the area 10 of `A`, and is a candidate of no other source;
`A` has `pm25 = 5` and `pop = 100`, and `U.pm25` ends as `500 / 60 = 25 / 3`, not `5`.
Second, the sources that count: the triangle `V` meets `B` alone (area `2 / 3`) and is a
candidate of `A` as well, with intersection area 0; `B` has `pm25 = 3` and `pop = 50`, and
`V.pm25` ends as `(5 * 100 + 3 * 50) / (50 * (2 / 3) / 10) = 195`, neither `3` nor
`3 * 10 / (2 / 3) = 45`. -/
theorem weighted_average_identity_counterexample :
    exGeometry.SearchIntersect exTree (exGeometry.Bounds recA.Polygonal) =
        [target polyT, target polyU, target polyV] ∧
      exGeometry.SearchIntersect exTree (exGeometry.Bounds recB.Polygonal) =
        [target polyT, target polyV] ∧
      exGeometry.Area recA.Polygonal = 10 ∧ exGeometry.Area recB.Polygonal = 10 ∧
      exGeometry.IntersectionArea recA.Polygonal polyU = 6 ∧ ringArea polyU = 6 ∧
      exGeometry.IntersectionArea recA.Polygonal polyV = 0 ∧
      exGeometry.IntersectionArea recB.Polygonal polyV = 2 / 3 ∧
      recA.fields.get "pm25" = F64.fin 5 ∧ recA.fields.get "pop" = F64.fin 100 ∧
      recB.fields.get "pm25" = F64.fin 3 ∧ recB.fields.get "pop" = F64.fin 50 ∧
      (accumulate exGeometry exPolicy exTree [recA, recB] (emptyOut exTargets)).map
          (fun acc => (fieldValue (normalize exPolicy acc) (envelope polyU) "pm25",
            fieldValue (normalize exPolicy acc) (envelope polyV) "pm25")) =
        some (F64.fin (25 / 3), F64.fin 195) ∧
      F64.fin (25 / 3) ≠ recA.fields.get "pm25" ∧
      F64.fin 195 ≠ recB.fields.get "pm25" ∧ F64.fin 195 ≠ F64.fin (3 * 10 / (2 / 3)) := by
  decide!

theorem goLookup_eq_of_get_eq (f f' : Fields) (k : String)
    (hs : (goLookup f k).isSome = (goLookup f' k).isSome) (hg : f.get k = f'.get k) :
    goLookup f k = goLookup f' k := by
  unfold Fields.get at hg
  cases h : goLookup f k with
  | none =>
    cases h' : goLookup f' k with
    | none => rfl
    | some y => rw [h, h'] at hs; cases hs
  | some x =>
    cases h' : goLookup f' k with
    | none => rw [h, h'] at hs; cases hs
    | some y =>
      rw [h, h'] at hg
      simp only at hg
      rw [hg]

/-- Two orders of the same additions leave the same bindings in every record. -/
theorem applyTo_perm_lookup {a b : List Event} (h : a.Perm b) (g : geom.Bounds) (f : Fields)
    (k : String) : goLookup (applyTo a g f) k = goLookup (applyTo b g f) k := by
  apply goLookup_eq_of_get_eq
  · rw [applyTo_isSome, applyTo_isSome, touched_perm h]
  · rw [applyTo_get, applyTo_get, delta_perm h]

theorem applyTo_perm_get {a b : List Event} (h : a.Perm b) (g : geom.Bounds) (f : Fields)
    (k : String) : (applyTo a g f).get k = (applyTo b g f).get k := by
  rw [applyTo_get, applyTo_get, delta_perm h]

/-- Two orders of the same additions, each followed by the normalization, give the same
table of fields. -/
theorem applyEvents_perm_fieldTable (wv : Policy) (hpol : ValidPolicy wv) {a b : List Event}
    (h : a.Perm b) (od : OutData) (g : geom.Bounds) (k : String) :
    (applyEvents a od).map (fun acc => fieldTable (normalize wv acc) g k) =
      (applyEvents b od).map (fun acc => fieldTable (normalize wv acc) g k) := by
  have hs : (applyEvents a od).isSome ↔ (applyEvents b od).isSome := by
    rw [applyEvents_isSome, applyEvents_isSome]
    constructor
    · intro hh e he
      exact hh e (h.mem_iff.2 he)
    · intro hh e he
      exact hh e (h.mem_iff.1 he)
  cases ha : applyEvents a od with
  | none =>
    cases hb : applyEvents b od with
    | none => rfl
    | some y =>
      rw [ha, hb] at hs
      simp at hs
  | some x =>
    cases hb : applyEvents b od with
    | none =>
      rw [ha, hb] at hs
      simp at hs
    | some y =>
      simp only [Option.map_some', Option.some.injEq]
      unfold fieldTable
      rw [normalize_lookup, normalize_lookup, applyEvents_lookup a od x ha g,
        applyEvents_lookup b od y hb g]
      cases hl : goLookup od g with
      | none => rfl
      | some t =>
        simp only [Option.map_some', Option.some.injEq]
        rw [normalizeFields_lookup_keys wv hpol _ _ (List.Perm.refl _) k,
          normalizeFields_lookup_keys wv hpol _ _ (List.Perm.refl _) k]
        cases hw : goLookup wv k with
        | none => exact applyTo_perm_lookup h g t.fields k
        | some w =>
          simp only
          rw [applyTo_perm_lookup h g t.fields k, applyTo_perm_get h g t.fields k,
            applyTo_perm_get h g t.fields w]

/-- The additions of the accumulation loop under another order of the source records and
another order of the candidates of each record. -/
theorem allEvents_perm (G : Geometry) (wv : Policy) (tree : List outRec)
    (records records' : List inRec) (search' : List outRec → geom.Bounds → List outRec)
    (hrec : records'.Perm records)
    (hcand : ∀ r ∈ records, (search' tree (G.Bounds r.Polygonal)).Perm
      (G.SearchIntersect tree (G.Bounds r.Polygonal))) :
    (allEvents { G with SearchIntersect := search' } wv tree records').Perm
      (allEvents G wv tree records) := by
  unfold allEvents
  refine (List.Perm.flatMap_right _ hrec).trans ?_
  apply List.Perm.flatMap_left
  intro r hr
  unfold recordEvents
  exact List.Perm.flatMap_right _ (hcand r hr)

/-- Claim C8, order independence.  For a policy in which no denominator is itself a key (as
the policy of `Run`), accumulation followed by normalization from the same `outData` gives
the same binding for every field of every target record, whatever the order of the source
records and whatever the order in which the tree returns the candidates of each record; the
two runs also fail together.  The table is compared at every key `g` and field `k`; the areas of the
source records need not be positive for this. -/
theorem order_independence (G : Geometry) (weightVars : Policy) (polygonTree : List outRec)
    (records records' : List inRec) (search' : List outRec → geom.Bounds → List outRec)
    (outData : OutData)
    (hpol : ValidPolicy weightVars)
    (hrec : records'.Perm records)
    (hcand : ∀ r ∈ records, (search' polygonTree (G.Bounds r.Polygonal)).Perm
      (G.SearchIntersect polygonTree (G.Bounds r.Polygonal)))
    (g : geom.Bounds) (k : String) :
    (accumulate { G with SearchIntersect := search' } weightVars polygonTree records'
        outData).map (fun acc => fieldTable (normalize weightVars acc) g k) =
      (accumulate G weightVars polygonTree records outData).map
        (fun acc => fieldTable (normalize weightVars acc) g k) := by
  rw [accumulate_eq, accumulate_eq]
  exact applyEvents_perm_fieldTable weightVars hpol
    (allEvents_perm G weightVars polygonTree records records' search' hrec hcand) outData g k

/-- The statement of C8 on the example scenario with the targets `T`, `U`, `V`: the sources
in the order `B`, `A` and every candidate list reversed give the same `pm25` in `T` as the
order `A`, `B`, namely `650 / 70`. -/
theorem order_independence_witness :
    0 < exGeometry.Area recA.Polygonal ∧ 0 < exGeometry.Area recB.Polygonal ∧
      (accumulate exGeometry exPolicy exTree [recA, recB] (emptyOut exTargets)).map
          (fun acc => fieldTable (normalize exPolicy acc) (envelope polyT) "pm25") =
        some (some (some (F64.fin (650 / 70)))) ∧
      (accumulate
          { exGeometry with
            SearchIntersect := fun tree b => (exGeometry.SearchIntersect tree b).reverse }
          exPolicy exTree [recB, recA] (emptyOut exTargets)).map
          (fun acc => fieldTable (normalize exPolicy acc) (envelope polyT) "pm25") =
        (accumulate exGeometry exPolicy exTree [recA, recB] (emptyOut exTargets)).map
          (fun acc => fieldTable (normalize exPolicy acc) (envelope polyT) "pm25") :=
  ⟨by decide!, by decide!, by decide!,
    order_independence exGeometry exPolicy exTree [recA, recB] [recB, recA]
      (fun tree b => (exGeometry.SearchIntersect tree b).reverse) (emptyOut exTargets)
      validPolicy_exPolicy (List.Perm.swap _ _ _) (fun _ _ => List.reverse_perm _)
      (envelope polyT) "pm25"⟩

theorem Fields.get_congr (f f' : Fields) (k : String) (h : goLookup f k = goLookup f' k) :
    f.get k = f'.get k := by
  unfold Fields.get
  rw [h]

/-- Claim C4 as amended, the visit of a candidate with intersection area zero.  The loop has
no test on the intersection area.  When the area of the source record is not zero, such a
visit succeeds and leaves the value of every field `k` that is not a key of the policy and
whose value in `r` is a number unchanged (it adds `r.fields[k] * 0`); a weighted-average field
`k` of `r` with denominator `w` is not skipped: it grows by `r.fields[k] * r.fields[w]`, as
for any other candidate. -/
theorem zero_area_visit (G : Geometry) (weightVars : Policy) (r : inRec) (rArea : ℚ)
    (p : outRec) (outData : OutData) (t : outRec)
    (ht : goLookup outData (G.Bounds p.Polygon) = some t)
    (hA : G.IntersectionArea r.Polygonal p.Polygon = 0) (hr : rArea ≠ 0) :
    ∃ out t', visitPair G weightVars r rArea p outData = some out ∧
      goLookup out (G.Bounds p.Polygon) = some t' ∧
      (∀ k v, goLookup weightVars k = none → r.fields.get k = F64.fin v →
        t'.fields.get k = t.fields.get k) ∧
      (∀ k w, (goLookup r.fields k).isSome → goLookup weightVars k = some w →
        t'.fields.get k = t.fields.get k + r.fields.get k * r.fields.get w) := by
  obtain ⟨out, t', hout, hl, _, hin, hnot, _⟩ :=
    visitPair_effect G weightVars r rArea p outData t ht
  refine ⟨out, t', hout, hl, ?_, ?_⟩
  · intro k v hk hv
    cases hp : goLookup r.fields k with
    | none => exact Fields.get_congr _ _ k (hnot k hp)
    | some x =>
      have h := hin k (by rw [hp]; rfl)
      rw [hk] at h
      simp only at h
      rw [h, hv, hA, F64.fin_div_fin _ _ hr, F64.fin_mul_fin, zero_div, mul_zero]
      exact add_zero _
  · intro k w hp hk
    have h := hin k hp
    rw [hk] at h
    exact h

/-- The statement of C4 as amended at source `A` and the triangle `V`, whose envelope meets
the envelope of `A` and which does not meet `A`. -/
theorem zero_area_visit_witness :
    goLookup (emptyOut exTargets) (exGeometry.Bounds (target polyV).Polygon) =
        some (target polyV) ∧
      exGeometry.IntersectionArea recA.Polygonal (target polyV).Polygon = 0 ∧
      ∃ out t', visitPair exGeometry exPolicy recA 10 (target polyV) (emptyOut exTargets) =
          some out ∧
        goLookup out (exGeometry.Bounds (target polyV).Polygon) = some t' ∧
        (∀ k v, goLookup exPolicy k = none → recA.fields.get k = F64.fin v →
          t'.fields.get k = (target polyV).fields.get k) ∧
        (∀ k w, (goLookup recA.fields k).isSome → goLookup exPolicy k = some w →
          t'.fields.get k =
            (target polyV).fields.get k + recA.fields.get k * recA.fields.get w) :=
  ⟨by decide!, by decide!,
    zero_area_visit exGeometry exPolicy recA 10 (target polyV) (emptyOut exTargets)
      (target polyV) (by decide!) (by decide!) (by norm_num)⟩

/-- Claim C4 as stated fails on the weighted-average fields.  The triangle `V` is a candidate
of the source `A` (the envelopes meet) with intersection area 0; the visit changes `V.pm25`
from 0 to `5 * 100 = 500`. -/
theorem zero_area_skip_counterexample :
    target polyV ∈ exGeometry.SearchIntersect exTree (exGeometry.Bounds recA.Polygonal) ∧
      exGeometry.IntersectionArea recA.Polygonal (target polyV).Polygon = 0 ∧
      goLookup exPolicy "pm25" = some "pop" ∧
      fieldValue (emptyOut exTargets) (envelope polyV) "pm25" = F64.fin 0 ∧
      (visitPair exGeometry exPolicy recA (exGeometry.Area recA.Polygonal) (target polyV)
          (emptyOut exTargets)).map (fun out => fieldValue out (envelope polyV) "pm25") =
        some (F64.fin 500) ∧
      F64.fin 500 ≠ F64.fin 0 := by
  decide!

theorem F64.isFinite_div (a b : ℚ) : (F64.fin a / F64.fin b).isFinite = true ↔ b ≠ 0 := by
  by_cases hb : b = 0
  · subst hb
    rw [F64.fin_div_zero]
    split_ifs <;> simp [F64.isFinite]
  · rw [F64.fin_div_fin a b hb]
    simp [F64.isFinite, hb]

/-- Claim C5 as amended, the area of the source record is not checked.  `Run` has no error
for a degenerate source: whatever the area `rArea` of the source record, also zero or negative,
the visit of a candidate keyed in `outData` succeeds, and every field `k` of `r` that is not a
key of the policy grows by `r.fields[k] * (isectArea / rArea)`; the fraction is a number
exactly when `rArea` is not zero. -/
theorem area_not_checked (G : Geometry) (weightVars : Policy) (r : inRec) (rArea : ℚ)
    (p : outRec) (outData : OutData) (t : outRec)
    (ht : goLookup outData (G.Bounds p.Polygon) = some t) :
    (∃ out t', visitPair G weightVars r rArea p outData = some out ∧
      goLookup out (G.Bounds p.Polygon) = some t' ∧
      ∀ k, (goLookup r.fields k).isSome → goLookup weightVars k = none →
        t'.fields.get k = t.fields.get k +
          r.fields.get k *
            (F64.fin (G.IntersectionArea r.Polygonal p.Polygon) / F64.fin rArea)) ∧
      ((F64.fin (G.IntersectionArea r.Polygonal p.Polygon) / F64.fin rArea).isFinite = true ↔
        rArea ≠ 0) := by
  obtain ⟨out, t', hout, hl, _, hin, _, _⟩ :=
    visitPair_effect G weightVars r rArea p outData t ht
  refine ⟨⟨out, t', hout, hl, ?_⟩, F64.isFinite_div _ _⟩
  intro k hp hk
  have h := hin k hp
  rw [hk] at h
  exact h

/-- The statement of C5 as amended at the degenerate source `D`, of area 0, and the target
`U`. -/
theorem area_not_checked_witness :
    goLookup (emptyOut [polyU]) (exGeometry.Bounds (target polyU).Polygon) =
        some (target polyU) ∧
      exGeometry.Area recD.Polygonal = 0 ∧
      (∃ out t', visitPair exGeometry weightVars recD 0 (target polyU) (emptyOut [polyU]) =
          some out ∧
        goLookup out (exGeometry.Bounds (target polyU).Polygon) = some t' ∧
        ∀ k, (goLookup recD.fields k).isSome → goLookup weightVars k = none →
          t'.fields.get k = (target polyU).fields.get k +
            recD.fields.get k *
              (F64.fin (exGeometry.IntersectionArea recD.Polygonal (target polyU).Polygon) /
                F64.fin 0)) ∧
      ((F64.fin (exGeometry.IntersectionArea recD.Polygonal (target polyU).Polygon) /
          F64.fin 0).isFinite = true ↔ (0 : ℚ) ≠ 0) :=
  ⟨by decide!, by decide!,
    area_not_checked exGeometry weightVars recD 0 (target polyU) (emptyOut [polyU])
      (target polyU) (by decide!)⟩

/-- Claim C5 as stated fails.  The source `D` has area 0 and the target `U` is its candidate;
`Run` does not fail: the accumulation evaluates `0 / 0` and leaves `NaN` in `U.TotalPop`, and
the run ends with `NaN` in both fields of `U`. -/
theorem degenerate_geometry_counterexample :
    exGeometry.Area recD.Polygonal = 0 ∧
      exGeometry.SearchIntersect [target polyU] (exGeometry.Bounds recD.Polygonal) =
        [target polyU] ∧
      accumulate exGeometry weightVars [target polyU] [recD] (emptyOut [polyU]) =
        some [(envelope polyU,
          ⟨polyU, [("TotalPM25", F64.fin 500), ("TotalPop", F64.nan)]⟩)] ∧
      Run exGeometry [recD] [polyU] =
        some [(envelope polyU, ⟨polyU, [("TotalPM25", F64.nan), ("TotalPop", F64.nan)]⟩)] := by
  decide!

/-- Claim C6 as amended, the normalization with a zero denominator.  The pass has no test on
the denominator and no marker.  For a policy in which no denominator is itself a key, a target
record whose weighted-average field `k` holds the number `a` and whose denominator `w` has
accumulated to 0 ends with the result of the division `a / 0` in `k`: `NaN` when `a` is 0, and
the infinity with the sign of `a` otherwise; the value is never a number. -/
theorem normalize_zero_denominator (weightVars : Policy) (hpol : ValidPolicy weightVars)
    (outData : OutData) (g : geom.Bounds) (t : outRec) (k w : String) (a : ℚ)
    (ht : goLookup outData g = some t)
    (hkw : goLookup weightVars k = some w)
    (hk : goLookup t.fields k = some (F64.fin a))
    (hw : t.fields.get w = 0) :
    fieldValue (normalize weightVars outData) g k = F64.fin a / F64.fin 0 ∧
      fieldValue (normalize weightVars outData) g k =
        (if a = 0 then F64.nan else if 0 < a then F64.pinf else F64.ninf) ∧
      (fieldValue (normalize weightVars outData) g k).isFinite = false := by
  have h1 : goLookup (normalize weightVars outData) g = some
      { Polygon := t.Polygon,
        fields := normalizeFields weightVars t.fields.keys t.fields } := by
    rw [normalize_lookup, ht]
    rfl
  have h2 := normalizeFields_lookup_keys weightVars hpol t.fields _ (List.Perm.refl _) k
  rw [hkw, hk] at h2
  simp only [Option.map_some'] at h2
  have h3 : fieldValue (normalize weightVars outData) g k = F64.fin a / F64.fin 0 := by
    rw [fieldValue_of_lookup _ _ _ _ h1]
    simp only
    rw [Fields.get_of_lookup _ k _ h2, Fields.get_of_lookup _ k _ hk, hw]
    rfl
  refine ⟨h3, by rw [h3, F64.fin_div_zero], ?_⟩
  rw [h3, F64.fin_div_zero]
  split_ifs <;> rfl

/-- The statement of C6 as amended on a target with `pm25 = 0` and `pop = 0`. -/
theorem normalize_zero_denominator_witness :
    goLookup [(envelope polyT, (⟨polyT, [("pm25", F64.fin 0), ("pop", F64.fin 0)]⟩ : outRec))]
        (envelope polyT) = some ⟨polyT, [("pm25", F64.fin 0), ("pop", F64.fin 0)]⟩ ∧
      fieldValue
          (normalize exPolicy
            [(envelope polyT, ⟨polyT, [("pm25", F64.fin 0), ("pop", F64.fin 0)]⟩)])
          (envelope polyT) "pm25" = F64.nan :=
  ⟨by decide!,
    (normalize_zero_denominator exPolicy validPolicy_exPolicy
      [(envelope polyT, ⟨polyT, [("pm25", F64.fin 0), ("pop", F64.fin 0)]⟩)] (envelope polyT)
      ⟨polyT, [("pm25", F64.fin 0), ("pop", F64.fin 0)]⟩ "pm25" "pop" 0 (by decide!)
      (by decide!) (by decide!) (by decide!)).2.1⟩

/-- Claim C6 as stated fails.  The source on `A` has `TotalPM25 = 5` and `TotalPop = 0`, and
the target `T` is its only candidate; `T` accumulates `TotalPM25 = 0` and `TotalPop = 0`, and
`Run` ends with `0 / 0 = NaN` in `T.TotalPM25`. -/
theorem zero_denominator_counterexample :
    accumulate exGeometry weightVars [target polyT] [recZ] (emptyOut [polyT]) =
        some [(envelope polyT,
          ⟨polyT, [("TotalPM25", F64.fin 0), ("TotalPop", F64.fin 0)]⟩)] ∧
      Run exGeometry [recZ] [polyT] =
        some [(envelope polyT,
          ⟨polyT, [("TotalPM25", F64.nan), ("TotalPop", F64.fin 0)]⟩)] ∧
      F64.fin 0 / F64.fin 0 = F64.nan := by
  decide!

/-- Claim C9, the branch taken by the denominator `TotalPop`.  In `Run` the field is not a
key of `weightVars`: the accumulation adds `r.fields[k] * (isectArea / rArea)` for it and
the normalization leaves it alone.  In `main` the weighted-average branch is guarded, in both
loops, by the presence of the field name in `weightCheck`; `TotalPop` is stored there with
the value `false`, so the guard holds for it, as it does for `TotalPM25`, and the stored
value is never read. -/
theorem denominator_branch :
    (∀ (r : inRec) (isectArea rArea : ℚ),
      contribution weightVars r isectArea rArea "TotalPop" =
        r.fields.get "TotalPop" * (F64.fin isectArea / F64.fin rArea)) ∧
      (∀ f : Fields, normalizeField weightVars f "TotalPop" = f) ∧
      goLookup weightCheck "TotalPop" = some false ∧
      weightCheckOk weightCheck "TotalPop" = true ∧
      weightCheckOk weightCheck "TotalPM25" = true :=
  ⟨fun _ _ _ => rfl, fun _ => rfl, by decide, by decide, by decide⟩

theorem goStore_keys {α β : Type} [DecidableEq α] (m : List (α × β)) (k : α) (v : β)
    (h : (goLookup m k).isSome) : (goStore m k v).map Prod.fst = m.map Prod.fst := by
  induction m with
  | nil => cases h
  | cons e rest ih =>
    obtain ⟨a, b⟩ := e
    by_cases hk : a = k
    · simp [goStore, hk]
    · simp only [goLookup, hk, if_false] at h
      simp [goStore, hk, ih h]

theorem addField_keys (od od1 : OutData) (g : geom.Bounds) (k : String) (d : F64)
    (h : addField od g k d = some od1) : od1.map Prod.fst = od.map Prod.fst := by
  unfold addField at h
  cases ht : goLookup od g with
  | none => simp [ht] at h
  | some t =>
    simp only [ht, Option.some.injEq] at h
    subst h
    exact goStore_keys od g _ (by rw [ht]; rfl)

/-- The accumulation never adds or removes a record. -/
theorem applyEvents_keys (evs : List Event) (od out : OutData)
    (h : applyEvents evs od = some out) : out.map Prod.fst = od.map Prod.fst := by
  induction evs generalizing od with
  | nil =>
    simp only [applyEvents_nil, Option.some.injEq] at h
    rw [h]
  | cons e evs ih =>
    rw [applyEvents_cons] at h
    cases h1 : addField od e.1 e.2.1 e.2.2 with
    | none => simp [h1] at h
    | some od1 =>
      simp only [h1, Option.some_bind] at h
      rw [ih od1 h, addField_keys od od1 _ _ _ h1]

theorem normalize_keys (wv : Policy) (od : OutData) :
    (normalize wv od).map Prod.fst = od.map Prod.fst := by
  unfold normalize
  rw [List.map_map]
  rfl

/-- Claim C10, the bounding envelope as the identity of a target record.  Two distinct target
polygons `p1` and `p2` have the same bounds.  Then `loadToShp` inserts both in the tree and
keeps one record, that of `p2`, under the common key; and when the tree returns both for a
source record `r`, `Run` ends with that single record, in which an extensive field `k` of `r`
is the sum of the contribution computed against `p1` and of the contribution computed against
`p2`; no record of the result holds the polygon `p1`. -/
theorem bounds_key_collision (G : Geometry) (p1 p2 : geom.Polygon) (r : inRec) (k : String)
    (hne : p1 ≠ p2) (hb : G.Bounds p1 = G.Bounds p2)
    (hcand : G.SearchIntersect [⟨p1, []⟩, ⟨p2, []⟩] (G.Bounds r.Polygonal) =
      [⟨p1, []⟩, ⟨p2, []⟩])
    (hk : goLookup weightVars k = none) (hkr : (goLookup r.fields k).isSome) :
    loadToShp G [p1, p2] ([], [], []) =
        ([G.Bounds p1, G.Bounds p2], [⟨p1, []⟩, ⟨p2, []⟩], [(G.Bounds p2, ⟨p2, []⟩)]) ∧
      ∃ out t, Run G [r] [p1, p2] = some out ∧ out.map Prod.fst = [G.Bounds p1] ∧
        goLookup out (G.Bounds p1) = some t ∧ t.Polygon = p2 ∧
        t.fields.get k =
          r.fields.get k *
              (F64.fin (G.IntersectionArea r.Polygonal p1) / F64.fin (G.Area r.Polygonal)) +
            r.fields.get k *
              (F64.fin (G.IntersectionArea r.Polygonal p2) / F64.fin (G.Area r.Polygonal)) ∧
        ∀ g u, goLookup out g = some u → u.Polygon ≠ p1 := by
  have hload : loadToShp G [p1, p2] ([], [], []) =
      ([G.Bounds p1, G.Bounds p2], [⟨p1, []⟩, ⟨p2, []⟩], [(G.Bounds p2, ⟨p2, []⟩)]) := by
    simp [loadToShp, goStore, hb]
  refine ⟨hload, ?_⟩
  have hev : allEvents G weightVars [⟨p1, []⟩, ⟨p2, []⟩] [r] =
      pairEvents G weightVars r (G.Area r.Polygonal) ⟨p1, []⟩ ++
        pairEvents G weightVars r (G.Area r.Polygonal) ⟨p2, []⟩ := by
    rw [allEvents_single]
    unfold recordEvents
    rw [hcand]
    simp
  have hod : goLookup [(G.Bounds p2, (⟨p2, []⟩ : outRec))] (G.Bounds p2) = some ⟨p2, []⟩ := by
    simp [goLookup]
  have hsome : (applyEvents (allEvents G weightVars [⟨p1, []⟩, ⟨p2, []⟩] [r])
      [(G.Bounds p2, ⟨p2, []⟩)]).isSome := by
    rw [applyEvents_isSome, hev]
    intro e he
    rcases List.mem_append.1 he with h | h
    · rw [pairEvents_key G weightVars r _ _ e h]
      simp only
      rw [hb, hod]
      rfl
    · rw [pairEvents_key G weightVars r _ _ e h]
      simp only
      rw [hod]
      rfl
  obtain ⟨acc, hacc⟩ := Option.isSome_iff_exists.1 hsome
  have hrun : Run G [r] [p1, p2] = some (normalize weightVars acc) := by
    unfold Run
    simp only [hload, allocFields, List.map_cons, List.map_nil]
    rw [accumulate_eq, hacc]
  have hlk : goLookup (normalize weightVars acc) (G.Bounds p2) = some
      { Polygon := p2,
        fields := normalizeFields weightVars
          (applyTo (allEvents G weightVars [⟨p1, []⟩, ⟨p2, []⟩] [r]) (G.Bounds p2) []).keys
          (applyTo (allEvents G weightVars [⟨p1, []⟩, ⟨p2, []⟩] [r]) (G.Bounds p2) []) } := by
    rw [normalize_lookup, applyEvents_lookup _ _ acc hacc, hod]
    rfl
  have hkeys : (normalize weightVars acc).map Prod.fst = [G.Bounds p1] := by
    rw [normalize_keys, applyEvents_keys _ _ acc hacc, hb]
    rfl
  refine ⟨normalize weightVars acc, _, hrun, hkeys, by rw [hb]; exact hlk, rfl, ?_, ?_⟩
  · simp only
    rw [normalizeFields_get_of_not_key weightVars _ _ k hk, applyTo_get, hev, delta_append,
      delta_pairEvents, delta_pairEvents]
    simp only [hb, hkr, and_self, if_true]
    unfold contribution
    rw [hk]
    simp only
    have h0 : Fields.get [] k = 0 := rfl
    rw [h0, zero_add]
  · intro g u hu
    have hg : g ∈ (normalize weightVars acc).map Prod.fst :=
      (goLookup_isSome_iff _ g).1 (by rw [hu]; rfl)
    rw [hkeys, List.mem_singleton] at hg
    rw [hg, hb, hlk] at hu
    cases hu
    exact Ne.symm hne

/-- The statement of C10 on the rectangle `T` and the triangle with the same envelope, for
a source on `A` with `TotalPop = 100`: `Run` returns one record, with the polygon of the
triangle and `TotalPop = 100 * 4 / 10 + 100 * (16 / 5) / 10 = 72`. -/
theorem bounds_key_collision_witness :
    polyT ≠ polyTri ∧ exGeometry.Bounds polyT = exGeometry.Bounds polyTri ∧
      Run exGeometry [⟨polyA, [("TotalPM25", F64.fin 5), ("TotalPop", F64.fin 100)]⟩]
          [polyT, polyTri] =
        some [(envelope polyT,
          ⟨polyTri, [("TotalPM25", F64.fin (1000 / 72)), ("TotalPop", F64.fin 72)]⟩)] ∧
      (loadToShp exGeometry [polyT, polyTri] ([], [], []) =
          ([exGeometry.Bounds polyT, exGeometry.Bounds polyTri],
            [⟨polyT, []⟩, ⟨polyTri, []⟩], [(exGeometry.Bounds polyTri, ⟨polyTri, []⟩)]) ∧
        ∃ out t,
          Run exGeometry [⟨polyA, [("TotalPM25", F64.fin 5), ("TotalPop", F64.fin 100)]⟩]
              [polyT, polyTri] = some out ∧
            out.map Prod.fst = [exGeometry.Bounds polyT] ∧
            goLookup out (exGeometry.Bounds polyT) = some t ∧ t.Polygon = polyTri ∧
            t.fields.get "TotalPop" =
              F64.fin 100 * (F64.fin (exGeometry.IntersectionArea polyA polyT) /
                  F64.fin (exGeometry.Area polyA)) +
                F64.fin 100 * (F64.fin (exGeometry.IntersectionArea polyA polyTri) /
                  F64.fin (exGeometry.Area polyA)) ∧
            ∀ g u, goLookup out g = some u → u.Polygon ≠ polyT) :=
  ⟨by decide!, by decide!, by decide!,
    bounds_key_collision exGeometry polyT polyTri
      ⟨polyA, [("TotalPM25", F64.fin 5), ("TotalPop", F64.fin 100)]⟩ "TotalPop" (by decide!)
      (by decide!) (by decide!) (by decide!) (by decide!)⟩

end arealReagg
